import Mathlib

/-!
Verification of the administrative-resolution and aggregation core of the
housing-project repository (web-app dashboard API layer).

The embedding models the JavaScript/TypeScript source shallowly:
* JS strings are Lean `String`s manipulated through their `List Char` data;
  character-class operations (`\s`, `\w`, `[0-9]`, `toLowerCase`,
  `toUpperCase`, `trim`) are modelled on the ASCII range, with the common
  Portuguese precomposed letters folded to their base letter to model
  `normalize("NFD").replace(/[̀-ͯ]/g, "")`.
* JS `Map` objects are association lists with `Map.get`/`Map.set` semantics
  (overwrite in place, append new keys at the end).
* JS numbers appearing in centroid arithmetic are modelled as exact
  rationals `ℚ`; the `bedrooms` column is `integer` in the database schema,
  so it is modelled as `Option Int` (on which `Math.round` is the identity).
* The paginated listing store is a fixed list of rows in cursor order; a
  `range(offset, offset+pageSize-1)` request returns
  `(rows.drop offset).take pageSize`.
-/

namespace Housing

/-! ### Character classes (ASCII models of the JS classes used by the source) -/

/-- Model of the JS `\s` class on the characters that occur in the data:
space, tab, newline, carriage return. -/
def isWsChar (c : Char) : Bool :=
  c.toNat = 32 || c.toNat = 9 || c.toNat = 10 || c.toNat = 13

/-- Model of `[0-9]`. -/
def isDigitChar (c : Char) : Bool :=
  decide (48 ≤ c.toNat ∧ c.toNat ≤ 57)

/-- Model of ASCII `[A-Za-z]`. -/
def isAlphaChar (c : Char) : Bool :=
  decide ((65 ≤ c.toNat ∧ c.toNat ≤ 90) ∨ (97 ≤ c.toNat ∧ c.toNat ≤ 122))

/-- Model of the JS `\w` class (no unicode flag): `[A-Za-z0-9_]`. -/
def isWordChar (c : Char) : Bool :=
  isAlphaChar c || isDigitChar c || c = '_'

/-- ASCII model of `String.prototype.toLowerCase` at one character. -/
def lowChar (c : Char) : Char :=
  if 65 ≤ c.toNat ∧ c.toNat ≤ 90 then Char.ofNat (c.toNat + 32) else c

/-- ASCII model of `String.prototype.toUpperCase` at one character. -/
def upChar (c : Char) : Char :=
  if 97 ≤ c.toNat ∧ c.toNat ≤ 122 then Char.ofNat (c.toNat - 32) else c

/-- Model of `normalize("NFD").replace(/[̀-ͯ]/g, "")` at one
character: the precomposed Latin letters with the diacritics occurring in
Portuguese administrative names decompose into base letter + combining
mark, and the mark is then stripped.  Characters outside the table are
unchanged. -/
def foldDiacritic (c : Char) : Char :=
  match c with
  | 'á' | 'à' | 'â' | 'ã' | 'ä' => 'a'
  | 'é' | 'è' | 'ê' | 'ë' => 'e'
  | 'í' | 'ì' | 'î' | 'ï' => 'i'
  | 'ó' | 'ò' | 'ô' | 'õ' | 'ö' => 'o'
  | 'ú' | 'ù' | 'û' | 'ü' => 'u'
  | 'ç' => 'c'
  | 'Á' | 'À' | 'Â' | 'Ã' | 'Ä' => 'A'
  | 'É' | 'È' | 'Ê' | 'Ë' => 'E'
  | 'Í' | 'Ì' | 'Î' | 'Ï' => 'I'
  | 'Ó' | 'Ò' | 'Ô' | 'Õ' | 'Ö' => 'O'
  | 'Ú' | 'Ù' | 'Û' | 'Ü' => 'U'
  | 'Ç' => 'C'
  | _ => c

/-! ### String helpers (on the character list of a JS string) -/

/-- Strip leading and trailing whitespace: model of `String.prototype.trim`. -/
def trimChars (l : List Char) : List Char :=
  ((l.dropWhile isWsChar).reverse.dropWhile isWsChar).reverse

/-- Collapse every maximal whitespace run to a single space: model of
`replace(/\s+/g, " ")`. -/
def squeezeWs : List Char → List Char
  | [] => []
  | [c] => [if isWsChar c then ' ' else c]
  | a :: b :: r =>
    if isWsChar a && isWsChar b then squeezeWs (b :: r)
    else (if isWsChar a then ' ' else a) :: squeezeWs (b :: r)

/-- Model of `String.prototype.trim` on `String`. -/
def jsTrim (s : String) : String := ⟨trimChars s.data⟩

/-- Model of `String.prototype.toUpperCase` on `String` (ASCII range). -/
def jsToUpper (s : String) : String := ⟨s.data.map upChar⟩

/-- JS `s || d` for strings: `d` when `s` is falsy (empty), else `s`. -/
def jsOrStr (s d : String) : String := if s = "" then d else s

/-- JS truthiness test `!x` for a nullable string: `null` and `""` are falsy. -/
def falsyOpt (o : Option String) : Bool :=
  match o with
  | none => true
  | some s => s = ""

/-- `normalizeLocationPart` from the source:
NFD-decompose and strip combining marks, lowercase, collapse internal
whitespace to single spaces, trim. -/
def normalizeLocationPart (s : String) : String :=
  ⟨trimChars (squeezeWs (s.data.map (fun c => lowChar (foldDiacritic c))))⟩

/-! ### Association lists: model of JS `Map` -/

/-- `Map.get`. -/
def getA {β : Type} : List (String × β) → String → Option β
  | [], _ => none
  | (k, v) :: r, key => if k = key then some v else getA r key

/-- `Map.set`: overwrite in place when the key exists, append otherwise. -/
def setA {β : Type} : List (String × β) → String → β → List (String × β)
  | [], key, v => [(key, v)]
  | (k, w) :: r, key, v =>
    if k = key then (key, v) :: r else (k, w) :: setA r key v

/-- `Map.values()` in insertion order. -/
def valuesA {β : Type} (m : List (String × β)) : List β := m.map (·.2)

/-- Keys of the association list. -/
def keysA {β : Type} (m : List (String × β)) : List String := m.map (·.1)

/-! ### The admin index (source types `PortugalAdminIndex` etc.) -/

/-- Value stored in `municipalityByKey`. -/
structure MuniRec where
  municipality : String
  district : String
deriving DecidableEq, Repr

/-- Value stored in `parishByKey` (source type `AdminNameRecord`). -/
structure ParishRec where
  parish : String
  municipality : String
  district : String
deriving DecidableEq, Repr

/-- The three lookup maps (source type `PortugalAdminIndex`). -/
structure PortugalAdminIndex where
  districtByKey : List (String × String)
  municipalityByKey : List (String × MuniRec)
  parishByKey : List (String × ParishRec)
deriving DecidableEq, Repr

/-- Raw district record of the fetched dataset: `label` is
`district.label`, possibly absent. -/
structure DistrictSrc where
  label : Option String
deriving DecidableEq, Repr

/-- Raw municipality record of the fetched dataset. -/
structure MuniSrc where
  label : Option String
  district : Option String
deriving DecidableEq, Repr

/-- Raw parish record of the fetched dataset. -/
structure ParishSrc where
  label : Option String
  municipality : Option String
  district : Option String
deriving DecidableEq, Repr

/-- Source type `PortugalAdminDataset`. -/
structure PortugalAdminDataset where
  districts : List DistrictSrc
  municipalities : List MuniSrc
  parishes : List ParishSrc
deriving DecidableEq, Repr

/-- `district.label?.trim()` followed by the `if (!label) continue` test:
returns the trimmed label when present and non-blank. -/
def trimmedLabel (o : Option String) : Option String :=
  match o with
  | none => none
  | some s => let t := jsTrim s; if t = "" then none else some t

/-- `buildPortugalAdminIndex` from the source: normalize each label to its
lookup key, skipping records whose label or required parent fields are
blank; later records overwrite earlier ones on key collision. -/
def buildPortugalAdminIndex (dataset : PortugalAdminDataset) : PortugalAdminIndex :=
  let districtByKey := dataset.districts.foldl
    (fun m d =>
      match trimmedLabel d.label with
      | none => m
      | some label => setA m (normalizeLocationPart label) label) []
  let municipalityByKey := dataset.municipalities.foldl
    (fun m mu =>
      match trimmedLabel mu.label, trimmedLabel mu.district with
      | some municipalityName, some districtName =>
        setA m (normalizeLocationPart municipalityName)
          ⟨municipalityName, districtName⟩
      | _, _ => m) []
  let parishByKey := dataset.parishes.foldl
    (fun m p =>
      match trimmedLabel p.label, trimmedLabel p.municipality, trimmedLabel p.district with
      | some parishName, some municipalityName, some districtName =>
        setA m (normalizeLocationPart parishName)
          ⟨parishName, municipalityName, districtName⟩
      | _, _, _ => m) []
  ⟨districtByKey, municipalityByKey, parishByKey⟩

/-! ### The free-text resolver -/

/-- Split on one delimiter character of the class `[,\-|/;()]`.  The source
splits on `+`-runs of the class; splitting on single delimiters produces
extra empty pieces which the subsequent emptiness filter removes, so the
final candidate list is identical. -/
def splitDelims : List Char → List Char → List (List Char)
  | [], acc => [acc.reverse]
  | c :: r, acc =>
    if c = ',' || c = '-' || c = '|' || c = '/' || c = ';' || c = '(' || c = ')' then
      acc.reverse :: splitDelims r []
    else splitDelims r (c :: acc)

/-- `extractLocationCandidates` from the source: trim the whole text,
return `[]` when blank, otherwise split on the delimiter class, trim each
piece and drop empties. -/
def extractLocationCandidates (locationText : Option String) : List String :=
  let raw := trimChars (locationText.getD "").data
  if raw = [] then []
  else
    ((splitDelims raw []).map (fun p => trimChars p)).filterMap
      (fun p => if p = [] then none else some ⟨p⟩)

/-- Resolution result: `{district, municipality, parish}`, each nullable. -/
structure ResolvedHierarchy where
  district : Option String
  municipality : Option String
  parish : Option String
deriving DecidableEq, Repr

/-- First candidate (in original order) whose normalized key hits the map. -/
def firstHit {β : Type} (m : List (String × β)) (candidates : List String) : Option β :=
  candidates.findSome? (fun part => getA m (normalizeLocationPart part))

/-- `resolveAdminHierarchy` from the source: parish pass (sets all three
and stops), then a municipality pass when municipality or district is
still falsy (sets both), then a district pass when district is still
falsy. -/
def resolveAdminHierarchy (locationText : Option String)
    (index : PortugalAdminIndex) : ResolvedHierarchy :=
  let candidates := extractLocationCandidates locationText
  let s1 : ResolvedHierarchy :=
    match firstHit index.parishByKey candidates with
    | some hit => ⟨some hit.district, some hit.municipality, some hit.parish⟩
    | none => ⟨none, none, none⟩
  let s2 : ResolvedHierarchy :=
    if falsyOpt s1.municipality || falsyOpt s1.district then
      match firstHit index.municipalityByKey candidates with
      | some hit => { s1 with municipality := some hit.municipality,
                              district := some hit.district }
      | none => s1
    else s1
  let s3 : ResolvedHierarchy :=
    if falsyOpt s2.district then
      match firstHit index.districtByKey candidates with
      | some hit => { s2 with district := some hit }
      | none => s2
    else s2
  s3

/-! ### The typology inferrer

Model of the regex `\b[tT]\s*([0-9]{1,2})(?:\s*\+\s*([0-9]{1,2}))?\b`
with JS backtracking semantics: leftmost match position, greedy digit
groups (two digits tried before one), the optional `+` group tried before
its omission, word boundaries on both sides. -/

/-- `\s*`: greedy whitespace skip (whitespace never overlaps the digit or
`+` classes, so maximal munch is exact). -/
def skipWs (l : List Char) : List Char := l.dropWhile isWsChar

/-- Candidates for a greedy `[0-9]{1,2}` group, in backtracking order
(two digits first, then one), each with the remaining input. -/
def digitCands : List Char → List (String × List Char)
  | [] => []
  | [a] => if isDigitChar a then [(⟨[a]⟩, [])] else []
  | a :: b :: r =>
    if isDigitChar a then
      if isDigitChar b then [(⟨[a, b]⟩, r), (⟨[a]⟩, b :: r)]
      else [(⟨[a]⟩, b :: r)]
    else []

/-- The trailing `\b`: the previous matched char is a digit (a word char),
so the next input char must be absent or a non-word char. -/
def boundaryAfter (l : List Char) : Bool :=
  match l with
  | [] => true
  | c :: _ => !isWordChar c

/-- Attempt the optional group `(?:\s*\+\s*([0-9]{1,2}))?` followed by the
trailing `\b`, from the input right after the base digits. -/
def tryPlusPart (rest : List Char) : Option String :=
  match skipWs rest with
  | '+' :: r =>
    (digitCands (skipWs r)).findSome?
      (fun cand => if boundaryAfter cand.2 then some cand.1 else none)
  | _ => none

/-- Attempt the regex body from the input right after `[tT]`: `\s*`, base
digits (greedy), then the optional `+` group, else the trailing `\b`
directly. -/
def tryFromT (afterT : List Char) : Option (String × Option String) :=
  (digitCands (skipWs afterT)).findSome?
    (fun cand =>
      match tryPlusPart cand.2 with
      | some extra => some (cand.1, some extra)
      | none => if boundaryAfter cand.2 then some (cand.1, none) else none)

/-- The leading `\b` at a match position: the previous character must be
absent or non-word (the `[tT]` that follows is a word char). -/
def boundaryBefore (prev : Option Char) : Bool :=
  match prev with
  | none => true
  | some p => !isWordChar p

/-- Scan match positions left to right.  `prev` is the character before
the current position. -/
def scanTok : List Char → Option Char → Option (String × Option String)
  | [], _ => none
  | c :: rest, prev =>
    if (c = 't' || c = 'T') && boundaryBefore prev then
      match tryFromT rest with
      | some res => some res
      | none => scanTok rest (some c)
    else scanTok rest (some c)

/-- `title.match(/\b[tT]\s*([0-9]{1,2})(?:\s*\+\s*([0-9]{1,2}))?\b/)`:
the captured base digits and optional extra digits of the leftmost match. -/
def findTypologyToken (s : String) : Option (String × Option String) :=
  scanTok s.data none

/-- Decimal rendering worker; the fuel strictly dominates the number of
divisions by ten, so it never runs out at the call below. -/
def natDecimalGo : Nat → Nat → List Char → List Char
  | 0, _, acc => acc
  | fuel + 1, n, acc =>
    if n < 10 then Nat.digitChar n :: acc
    else natDecimalGo fuel (n / 10) (Nat.digitChar (n % 10) :: acc)

/-- Decimal rendering of a natural number (the template `${n}`). -/
def natDecimalChars (n : Nat) : List Char := natDecimalGo (n + 1) n []

/-- Decimal rendering as a string. -/
def natDecimal (n : Nat) : String := ⟨natDecimalChars n⟩

/-- `inferTypologyLabel` from the source.  `bedrooms` is the database's
`integer` column, so `Math.round` is the identity and `Number.isFinite`
always holds; the remaining guard is `bedrooms >= 0`. -/
def inferTypologyLabel (bedrooms : Option Int) (title : Option String) : String :=
  let rawTitle := title.getD ""
  match findTypologyToken rawTitle with
  | some (base, some extra) => "T" ++ base ++ "+" ++ extra
  | some (base, none) => "T" ++ base
  | none =>
    match bedrooms with
    | some b => if 0 ≤ b then "T" ++ natDecimal b.toNat else "Unknown"
    | none => "Unknown"

/-! ### The aggregation engine (`getImportDashboardMetrics` core loop)

The per-source ingestion metrics of the source function are external
database counters and are not part of the resolution-and-aggregation core;
the model covers the paginated scan, the region/typology breakdown maps
and the buy/rent totals. -/

/-- The listing fields consumed by the aggregation scan
(`select("listing_type,bedrooms,title,location_text")`). -/
structure ListingRow where
  listing_type : Option String
  bedrooms : Option Int
  title : Option String
  location_text : Option String
deriving DecidableEq, Repr

/-- One breakdown bucket.  The source uses two record shapes,
`RegionBreakdownRow` (key field `region`) and `TypologyBreakdownRow`
(key field `typology`); both are `{key, buy_count, rent_count,
total_count}` and are embedded as this single shape with key field
`group`. -/
structure BreakdownRow where
  group : String
  buy_count : Nat
  rent_count : Nat
  total_count : Nat
deriving DecidableEq, Repr

/-- The two listing classifications; `row.listing_type === "rent"`
selects `rent`, anything else is `buy`. -/
inductive BuyRent where
  | buy
  | rent
deriving DecidableEq, Repr

/-- `row.listing_type === "rent" ? "rent" : "buy"`. -/
def classifyListing (r : ListingRow) : BuyRent :=
  if r.listing_type = some "rent" then .rent else .buy

/-- Increment one bucket (`buy_count`/`rent_count` by classification,
`total_count` always). -/
def incBucket (ty : BuyRent) (c : BreakdownRow) : BreakdownRow :=
  match ty with
  | .buy => { c with buy_count := c.buy_count + 1, total_count := c.total_count + 1 }
  | .rent => { c with rent_count := c.rent_count + 1, total_count := c.total_count + 1 }

/-- `map.get(key) ?? fresh` followed by increment and `map.set(key, ...)`. -/
def bumpBucket (m : List (String × BreakdownRow)) (key : String) (ty : BuyRent) :
    List (String × BreakdownRow) :=
  let current := (getA m key).getD ⟨key, 0, 0, 0⟩
  setA m key (incBucket ty current)

/-- The three region levels of the breakdown. -/
inductive RegionLevel where
  | district
  | municipality
  | parish
deriving DecidableEq, Repr

/-- The mutable aggregation state of the scan loop: the three region maps,
the typology map, and the running buy/rent totals. -/
structure AggState where
  district : List (String × BreakdownRow)
  municipality : List (String × BreakdownRow)
  parish : List (String × BreakdownRow)
  typology : List (String × BreakdownRow)
  totalBuy : Nat
  totalRent : Nat
deriving DecidableEq, Repr

/-- Initial aggregation state (empty maps, zero totals). -/
def initAggState : AggState := ⟨[], [], [], [], 0, 0⟩

/-- The region map of one level. -/
def AggState.regionMap (st : AggState) : RegionLevel → List (String × BreakdownRow)
  | .district => st.district
  | .municipality => st.municipality
  | .parish => st.parish

/-- Field of the resolved hierarchy at one level. -/
def ResolvedHierarchy.atLevel (r : ResolvedHierarchy) : RegionLevel → Option String
  | .district => r.district
  | .municipality => r.municipality
  | .parish => r.parish

/-- The group key a row is bucketed under at one level:
`resolvedRegion.<level> ?? "Unknown"`. -/
def regionKeyOf (index : PortugalAdminIndex) (level : RegionLevel) (r : ListingRow) : String :=
  ((resolveAdminHierarchy r.location_text index).atLevel level).getD "Unknown"

/-- The typology key of a row (the source passes `bedrooms` and `title`
through their `typeof` guards, which the `Option` fields already encode). -/
def typologyKeyOf (r : ListingRow) : String :=
  inferTypologyLabel r.bedrooms r.title

/-- The per-row body of the aggregation loop. -/
def processRow (index : PortugalAdminIndex) (st : AggState) (r : ListingRow) : AggState :=
  let ty := classifyListing r
  let st :=
    { st with
      totalBuy := st.totalBuy + (if ty = BuyRent.buy then 1 else 0),
      totalRent := st.totalRent + (if ty = BuyRent.rent then 1 else 0) }
  let st :=
    { st with
      district := bumpBucket st.district (regionKeyOf index .district r) ty,
      municipality := bumpBucket st.municipality (regionKeyOf index .municipality r) ty,
      parish := bumpBucket st.parish (regionKeyOf index .parish r) ty }
  { st with typology := bumpBucket st.typology (typologyKeyOf r) ty }

/-- The paginated scan loop of `getImportDashboardMetrics` over the fixed
listing set `rows`, returning the final state and the number of page
requests issued.  One iteration requests `range(offset, offset+P-1)`
(`rows.take P` of the remaining suffix), breaks on an empty page, folds
the page through `processRow`, breaks on a short page, else advances the
cursor.  The source's page size is the constant 5000; it is a parameter
`P` here.  (The `page = []` test also guards the impossible `P = 0`
case, where the source would never terminate.) -/
def scanPagesGo (index : PortugalAdminIndex) (P : Nat) :
    Nat → AggState → List ListingRow → AggState × Nat
  | 0, st, _ => (st, 0)
  | fuel + 1, st, rows =>
    let page := rows.take P
    if page = [] then (st, 1)
    else
      let st' := page.foldl (processRow index) st
      if page.length < P then (st', 1)
      else
        let res := scanPagesGo index P fuel st' (rows.drop P)
        (res.1, res.2 + 1)

/-- The loop entry point.  For a positive page size every iteration but
the last consumes at least one row, so `rows.length + 1` units of fuel
strictly dominate the iteration count and the fuel-exhaustion branch is
unreachable. -/
def scanPages (index : PortugalAdminIndex) (P : Nat) (st : AggState)
    (rows : List ListingRow) : AggState × Nat :=
  scanPagesGo index P (rows.length + 1) st rows

/-- Sort comparator combinator: JS `x || y` on numbers (for the values
produced here, `x` when nonzero, else `y`). -/
def jsOrInt (x y : Int) : Int := if x = 0 then y else x

/-- The region comparator of `sortRegions`:
`b.total_count - a.total_count || a.region.localeCompare(b.region, "pt")`.
The locale-aware comparison is the environment's ICU collator; it is a
parameter `lc` of the model. -/
def regionCmp (lc : String → String → Int) (a b : BreakdownRow) : Int :=
  jsOrInt ((b.total_count : Int) - (a.total_count : Int)) (lc a.group b.group)

/-- The typology comparator of `sortTypologies`: `"Unknown"` first compares
greater than everything, then the region comparator shape. -/
def typologyCmp (lc : String → String → Int) (a b : BreakdownRow) : Int :=
  if a.group = "Unknown" then 1
  else if b.group = "Unknown" then -1
  else regionCmp lc a b

/-- `Array.from(entries).sort(cmp)` modelled as a stable comparison sort
with the order `cmp a b ≤ 0`. -/
def sortRegions (lc : String → String → Int) (entries : List BreakdownRow) :
    List BreakdownRow :=
  entries.insertionSort (fun a b => regionCmp lc a b ≤ 0)

/-- The typology sort. -/
def sortTypologies (lc : String → String → Int) (entries : List BreakdownRow) :
    List BreakdownRow :=
  entries.insertionSort (fun a b => typologyCmp lc a b ≤ 0)

/-- The dashboard fields of `ImportDashboardMetrics` computed by the
aggregation core (the per-source ingestion counters are external and not
modelled). -/
structure ImportDashboardMetrics where
  total_buy : Nat
  total_rent : Nat
  regions_district : List BreakdownRow
  regions_municipality : List BreakdownRow
  regions_parish : List BreakdownRow
  typologies : List BreakdownRow
deriving DecidableEq, Repr

/-- `getImportDashboardMetrics` aggregation core: run the paginated scan
from the initial state, then sort each breakdown. -/
def getImportDashboardMetrics (lc : String → String → Int)
    (index : PortugalAdminIndex) (P : Nat) (rows : List ListingRow) :
    ImportDashboardMetrics :=
  let st := (scanPages index P initAggState rows).1
  { total_buy := st.totalBuy
    total_rent := st.totalRent
    regions_district := sortRegions lc (valuesA st.district)
    regions_municipality := sortRegions lc (valuesA st.municipality)
    regions_parish := sortRegions lc (valuesA st.parish)
    typologies := sortTypologies lc (valuesA st.typology) }

/-! ### Drill-down queries -/

/-- `locationPartByLevel` from the source: normalized resolved label with
`"Unknown"` for a null level. -/
def locationPartByLevel (locationText : Option String) (level : RegionLevel)
    (index : PortugalAdminIndex) : String :=
  normalizeLocationPart (regionKeyOfText index level locationText)
where
  /-- `resolved.<level> ?? "Unknown"` on a raw location text. -/
  regionKeyOfText (index : PortugalAdminIndex) (level : RegionLevel)
      (locationText : Option String) : String :=
    ((resolveAdminHierarchy locationText index).atLevel level).getD "Unknown"

/-- The shared pagination loop of the drill-down queries
(`getDashboardListingsBySource/ByTypology/ByRegion`): request a page, keep
the rows matching the filter, stop on a short page.  The source's page
size is the constant 1000; it is the parameter `P`.  (The `page = []`
test is behaviourally identical for `P > 0` — an empty page is short —
and guards the impossible `P = 0` case.) -/
def drillPagesGo (P : Nat) (keep : ListingRow → Bool) :
    Nat → List ListingRow → List ListingRow
  | 0, _ => []
  | fuel + 1, rows =>
    let page := rows.take P
    if page = [] then []
    else
      let chunk := page.filter keep
      if page.length < P then chunk
      else chunk ++ drillPagesGo P keep fuel (rows.drop P)

/-- The loop entry point; as for `scanPages`, `rows.length + 1` units of
fuel strictly dominate the iteration count for a positive page size. -/
def drillPages (P : Nat) (keep : ListingRow → Bool) (rows : List ListingRow) :
    List ListingRow :=
  drillPagesGo P keep (rows.length + 1) rows

/-- `getDashboardListingsByRegion` from the source: normalize the queried
label (`regionLabel || "Unknown"`), re-scan the full set and keep rows
whose `locationPartByLevel` equals the target.  (The projection
`normalizeDashboardRow` to display fields is dropped: the model returns
the matching rows themselves.) -/
def getDashboardListingsByRegion (index : PortugalAdminIndex) (P : Nat)
    (level : RegionLevel) (regionLabel : String) (rows : List ListingRow) :
    List ListingRow :=
  let target := normalizeLocationPart (jsOrStr regionLabel "Unknown")
  drillPages P (fun r => locationPartByLevel r.location_text level index = target) rows

/-- `getDashboardListingsByTypology` from the source: uppercase the
trimmed queried label, re-scan the full set and keep rows whose inferred
typology uppercases to the target. -/
def getDashboardListingsByTypology (P : Nat) (typology : String)
    (rows : List ListingRow) : List ListingRow :=
  let target := jsToUpper (jsTrim typology)
  drillPages P (fun r => jsToUpper (typologyKeyOf r) = target) rows

/-! ### The `/api/pt-admin` route (`route.ts`) -/

/-- `AdminAreaOption` fields involved in the centroid merge; the remaining
identification fields are carried by `label` (the merge spreads the
existing record, so they all behave like `label`).  Coordinates are exact
rationals. -/
structure AdminAreaOption where
  label : String
  lat : Option ℚ
  lng : Option ℚ
  sample_count : Nat
deriving DecidableEq, Repr

/-- `upsertAreaOption` merge step for an existing entry: running weighted
average of coordinates with the running sample count; a null side falls
back through `existing.lat ?? item.lat`. -/
def upsertMerge (existing item : AdminAreaOption) : AdminAreaOption :=
  let total := existing.sample_count + 1
  let nextLat : Option ℚ :=
    match existing.lat, item.lat with
    | some a, some b => some ((a * existing.sample_count + b) / total)
    | _, _ => existing.lat <|> item.lat
  let nextLng : Option ℚ :=
    match existing.lng, item.lng with
    | some a, some b => some ((a * existing.sample_count + b) / total)
    | _, _ => existing.lng <|> item.lng
  { existing with lat := nextLat, lng := nextLng, sample_count := total }

/-- One raw upstream row's contribution for a fixed colliding key: the
coordinates `geo_point_2d?.lat/lon ?? null`. -/
structure RawCoordRow where
  lat : Option ℚ
  lng : Option ℚ
deriving DecidableEq, Repr

/-- The `AdminAreaOption` the `GET` handler builds from one raw row
(`sample_count: 1`). -/
def mkAreaOption (label : String) (r : RawCoordRow) : AdminAreaOption :=
  ⟨label, r.lat, r.lng, 1⟩

/-- Folding all raw rows that collide on one key through
`upsertAreaOption`: the first row creates the entry (`map.set` of the
fresh item), later rows merge into it. -/
def mergeCollidingRows (label : String) (rows : List RawCoordRow) :
    Option AdminAreaOption :=
  rows.foldl
    (fun acc r =>
      match acc with
      | none => some (mkAreaOption label r)
      | some existing => some (upsertMerge existing (mkAreaOption label r)))
    none

/-- One upstream page response of the reference provider: a success page
(`results`, optional `total_count`) or a non-success HTTP status. -/
inductive UpstreamPage (T : Type) where
  | ok (results : List T) (total_count : Option Nat)
  | err (status : Nat)

/-- `fetchAllPages` from `route.ts`, over the sequence of responses the
upstream returns to the successive page requests (the request at index
`i` receives `pages[i]`; an exhausted sequence behaves as an empty
success page, which the loop treats as short).  Accumulates rows, breaks
on a short page or when the reported `total_count` is reached, and fails
the whole fetch on the first non-success response. -/
def fetchAllPages {T : Type} (limit : Nat) :
    List (UpstreamPage T) → Nat → Except Nat (List T)
  | [], _ => .ok []
  | .err status :: _, _ => .error status
  | .ok rows tc :: rest, offset =>
    let offset' := offset + rows.length
    if rows.length < limit then .ok rows
    else
      match tc with
      | some n =>
        if n ≤ offset' then .ok rows
        else (fetchAllPages limit rest offset').map (rows ++ ·)
      | none => (fetchAllPages limit rest offset').map (rows ++ ·)

/-- The route's response: the JSON dataset on success, or an error status
with a message. -/
inductive RouteResponse (D : Type) where
  | okJson (data : D)
  | errJson (status : Nat)

/-- The module-level cache of `route.ts`. -/
structure RouteCache (D : Type) where
  cached : Option (Nat × D)

/-- `CACHE_MS = 12 * 60 * 60 * 1000`. -/
def cacheMs : Nat := 12 * 60 * 60 * 1000

/-- The `GET` handler of `/api/pt-admin`, abstracted over the
dataset-building step `build` applied to the three successful fetch
results: serve a fresh cache entry; otherwise fetch the three datasets and
either publish and cache the built dataset, or fail with status 502
leaving the cache untouched. -/
def routeGet {T D : Type} (limit : Nat) (now : Nat) (st : RouteCache D)
    (build : List T → List T → List T → D)
    (districtPages municipalityPages parishPages : List (UpstreamPage T)) :
    RouteCache D × RouteResponse D :=
  match st.cached with
  | some (at_, data) =>
    if now - at_ < cacheMs then (st, .okJson data)
    else routeGetFetch limit now st build districtPages municipalityPages parishPages
  | none => routeGetFetch limit now st build districtPages municipalityPages parishPages
where
  /-- The fetch-and-build path (the `try` block). -/
  routeGetFetch (limit : Nat) (now : Nat) (st : RouteCache D)
      (build : List T → List T → List T → D)
      (districtPages municipalityPages parishPages : List (UpstreamPage T)) :
      RouteCache D × RouteResponse D :=
    match fetchAllPages limit districtPages 0,
        fetchAllPages limit municipalityPages 0,
        fetchAllPages limit parishPages 0 with
    | .ok ds, .ok ms, .ok ps =>
      let data := build ds ms ps
      (⟨some (now, data)⟩, .okJson data)
    | .error _, _, _ => (st, .errJson 502)
    | _, .error _, _ => (st, .errJson 502)
    | _, _, .error _ => (st, .errJson 502)

/-! ### Derived quantities and properties used by the verification statements -/

/-- Sum of the `total_count` fields of a bucket list. -/
def totalsOf (l : List BreakdownRow) : Nat := (l.map (·.total_count)).sum

/-- Sum of the `total_count` fields of the map entries whose key satisfies
`p`. -/
def sumIfTotal (p : String → Bool) (m : List (String × BreakdownRow)) : Nat :=
  (m.map (fun e => if p e.1 then e.2.total_count else 0)).sum

/-- `total_count` of the bucket at a key (0 when the bucket is absent). -/
def getTotalA (m : List (String × BreakdownRow)) (k : String) : Nat :=
  match getA m k with
  | some c => c.total_count
  | none => 0

/-- Every bucket of the map satisfies `buy_count + rent_count = total_count`. -/
def bucketsWF (m : List (String × BreakdownRow)) : Prop :=
  ∀ e ∈ m, e.2.buy_count + e.2.rent_count = e.2.total_count

/-- Every bucket's embedded key field equals its map key. -/
def groupsInv (m : List (String × BreakdownRow)) : Prop :=
  ∀ e ∈ m, e.2.group = e.1

/-- The characters a non-`"Unknown"` typology label is built from:
a capital `T`, `+`, and decimal digits. -/
def isTokChar (c : Char) : Bool := c = 'T' || c = '+' || isDigitChar c

/-- Shape of a non-`"Unknown"` inferred typology label. -/
def TokenForm (s : String) : Prop := ∀ c ∈ s.data, isTokChar c = true

/-- Shape of every inferred typology label. -/
def TypologyShape (s : String) : Prop := s = "Unknown" ∨ TokenForm s

/-- The locale comparison is total: one direction always compares `≤ 0`. -/
def LcTotal (lc : String → String → Int) : Prop :=
  ∀ a b, lc a b ≤ 0 ∨ lc b a ≤ 0

/-- The `≤ 0` relation of the locale comparison is transitive. -/
def LcTrans (lc : String → String → Int) : Prop :=
  ∀ a b c, lc a b ≤ 0 → lc b c ≤ 0 → lc a c ≤ 0

/-- The order the region sort is claimed to produce: non-increasing
`total_count`, ties in ascending locale order. -/
def rLex (lc : String → String → Int) (a b : BreakdownRow) : Prop :=
  regionCmp lc a b ≤ 0

/-- The order the typology sort is claimed to produce: `"Unknown"` after
everything, the region order on the rest. -/
def rStar (lc : String → String → Int) (a b : BreakdownRow) : Prop :=
  if a.group = "Unknown" then b.group = "Unknown"
  else if b.group = "Unknown" then True
  else rLex lc a b

/-- Claim C1's property of one aggregation run: every breakdown's totals
sum to the number of rows processed, which also equals
`total_buy + total_rent`; each level's bucket at any key counts exactly
the rows bucketed under that key — in particular rows that fail to
resolve are all counted under `"Unknown"`, never dropped — and every
bucket satisfies `buy_count + rent_count = total_count`. -/
def C1Prop (lc : String → String → Int) (index : PortugalAdminIndex) (P : Nat)
    (rows : List ListingRow) : Prop :=
  let m := getImportDashboardMetrics lc index P rows
  let st := (scanPages index P initAggState rows).1
  totalsOf m.regions_district = rows.length ∧
  totalsOf m.regions_municipality = rows.length ∧
  totalsOf m.regions_parish = rows.length ∧
  totalsOf m.typologies = rows.length ∧
  m.total_buy + m.total_rent = rows.length ∧
  (∀ level k, getTotalA (st.regionMap level) k
      = rows.countP (fun r => regionKeyOf index level r == k)) ∧
  (∀ b ∈ m.regions_district, b.buy_count + b.rent_count = b.total_count) ∧
  (∀ b ∈ m.regions_municipality, b.buy_count + b.rent_count = b.total_count) ∧
  (∀ b ∈ m.regions_parish, b.buy_count + b.rent_count = b.total_count) ∧
  (∀ b ∈ m.typologies, b.buy_count + b.rent_count = b.total_count)

/-- The normalized target key of a region drill-down query. -/
def normTarget (label : String) : String :=
  normalizeLocationPart (jsOrStr label "Unknown")

/-- Claim C2's property (as amended): a region drill-down returns as many
rows as the aggregation counted across all buckets of that level whose
label normalizes to the queried label's target — hence exactly the
bucket's own `total_count` whenever bucket labels normalize injectively —
and a typology drill-down returns exactly its bucket's `total_count`. -/
def C2Prop (index : PortugalAdminIndex) (Pagg Pdrill : Nat)
    (rows : List ListingRow) : Prop :=
  let st := (scanPages index Pagg initAggState rows).1
  (∀ level label,
    (getDashboardListingsByRegion index Pdrill level label rows).length
      = sumIfTotal (fun k => normalizeLocationPart k == normTarget label)
          (st.regionMap level)) ∧
  (∀ label,
    (getDashboardListingsByTypology Pdrill label rows).length
      = sumIfTotal (fun k => jsToUpper k == jsToUpper (jsTrim label)) st.typology) ∧
  (∀ label, label ∈ keysA st.typology →
    (getDashboardListingsByTypology Pdrill label rows).length
      = getTotalA st.typology label) ∧
  (∀ level label, label ∈ keysA (st.regionMap level) → label ≠ "" →
    (∀ k₁ ∈ keysA (st.regionMap level), ∀ k₂ ∈ keysA (st.regionMap level),
      normalizeLocationPart k₁ = normalizeLocationPart k₂ → k₁ = k₂) →
    (getDashboardListingsByRegion index Pdrill level label rows).length
      = getTotalA (st.regionMap level) label)

/-- Claim C8's property: region breakdowns are sorted by the lexicographic
(total descending, locale ascending) order, typologies likewise but with
`"Unknown"` forced last. -/
def C8Prop (lc : String → String → Int) (m : ImportDashboardMetrics) : Prop :=
  List.Sorted (rLex lc) m.regions_district ∧
  List.Sorted (rLex lc) m.regions_municipality ∧
  List.Sorted (rLex lc) m.regions_parish ∧
  List.Sorted (rStar lc) m.typologies

/-! ### Concrete fixtures for witnesses and counterexamples -/

/-- A trivial locale comparison (every pair ties). -/
def lcZero : String → String → Int := fun _ _ => 0

/-- The empty admin index. -/
def emptyIndex : PortugalAdminIndex := ⟨[], [], []⟩

/-- A listing row with every nullable field null. -/
def blankRow : ListingRow := ⟨none, none, none, none⟩

/-- An index (as built by the index builder) whose parish records carry an
uppercased district spelling that collides, after normalization, with the
canonical district label. -/
def collideIndex : PortugalAdminIndex :=
  buildPortugalAdminIndex
    ⟨[⟨some "Porto"⟩], [], [⟨some "x", some "M", some "PORTO"⟩]⟩

/-- Two rows: one resolving its district through the parish record
(label `"PORTO"`), one through the district map (label `"Porto"`). -/
def collideRows : List ListingRow :=
  [⟨none, none, none, some "x"⟩, ⟨none, none, none, some "porto"⟩]

/-- The claim C7 scenario dataset: district `Porto`, municipality
`Matosinhos` under `Porto`, no parishes. -/
def scenarioDataset : PortugalAdminDataset :=
  ⟨[⟨some "Porto"⟩], [⟨some "Matosinhos", some "Porto"⟩], []⟩

/-- An index built from a dataset containing a parish literally named
`"Rua das Flores 12"`. -/
def ruaIndex : PortugalAdminIndex :=
  buildPortugalAdminIndex ⟨[], [], [⟨some "Rua das Flores 12", some "M", some "D"⟩]⟩

/-- Sum of the latitudes of colliding rows (all-coordinates-present case). -/
def latSum (rows : List RawCoordRow) : ℚ :=
  (rows.map (fun r => r.lat.getD 0)).sum

/-- Sum of the longitudes of colliding rows. -/
def lngSum (rows : List RawCoordRow) : ℚ :=
  (rows.map (fun r => r.lng.getD 0)).sum

/-- Colliding centroid rows: a null-coordinate row first. -/
def nullFirstRows : List RawCoordRow :=
  [⟨none, none⟩, ⟨some 0, some 0⟩, ⟨some 2, some 2⟩]

/-- The same multiset of centroid rows with the null-coordinate row last. -/
def nullLastRows : List RawCoordRow :=
  [⟨some 0, some 0⟩, ⟨some 2, some 2⟩, ⟨none, none⟩]

end Housing

/-! Sanity examples (spec §8 test vectors). -/

example : Housing.normalizeLocationPart "Lisboa " = Housing.normalizeLocationPart "lisboa" := by decide
example : Housing.normalizeLocationPart "Évora" = Housing.normalizeLocationPart "evora" := by decide
example : Housing.inferTypologyLabel none (some "T3+1 apartment in center") = "T3+1" := by decide
example : Housing.inferTypologyLabel (some 2) (some "Nice flat") = "T2" := by decide
example : Housing.inferTypologyLabel none (some "Nice flat") = "Unknown" := by decide

namespace Housing

/-! ### Association-list lemmas -/

theorem getA_setA {β : Type} (m : List (String × β)) (k k' : String) (v : β) :
    getA (setA m k v) k' = if k = k' then some v else getA m k' := by
  induction m with
  | nil => simp [setA, getA]
  | cons e r ih =>
    obtain ⟨k₀, w⟩ := e
    by_cases h : k₀ = k
    · subst h
      by_cases h' : k₀ = k'
      · subst h'
        simp [setA, getA]
      · simp [setA, getA, h']
    · by_cases h' : k₀ = k'
      · subst h'
        simp [setA, getA, h, Ne.symm h]
      · simp [setA, getA, h, h', ih]

theorem mem_of_getA {β : Type} {m : List (String × β)} {k : String} {v : β}
    (h : getA m k = some v) : (k, v) ∈ m := by
  induction m with
  | nil => simp [getA] at h
  | cons e r ih =>
    obtain ⟨k₀, w⟩ := e
    by_cases hk : k₀ = k
    · subst hk
      simp [getA] at h
      simp [h]
    · simp [getA, hk] at h
      exact List.mem_cons_of_mem _ (ih h)

theorem getA_eq_none_iff {β : Type} (m : List (String × β)) (k : String) :
    getA m k = none ↔ k ∉ keysA m := by
  induction m with
  | nil => simp [getA, keysA]
  | cons e r ih =>
    obtain ⟨k₀, w⟩ := e
    by_cases hk : k₀ = k
    · subst hk
      simp [getA, keysA]
    · simp [getA, keysA, hk, Ne.symm hk, ih]

theorem keysA_cons {β : Type} (k₀ : String) (w : β) (r : List (String × β)) :
    keysA ((k₀, w) :: r) = k₀ :: keysA r := rfl

theorem keysA_setA_mem {β : Type} (m : List (String × β)) (k : String) (v : β)
    (h : k ∈ keysA m) : keysA (setA m k v) = keysA m := by
  induction m with
  | nil => simp [keysA] at h
  | cons e r ih =>
    obtain ⟨k₀, w⟩ := e
    by_cases hk : k₀ = k
    · subst hk
      simp [setA, keysA_cons]
    · rw [keysA_cons] at h
      rcases List.mem_cons.mp h with h | h
      · exact absurd h.symm hk
      · simp only [setA, if_neg hk, keysA_cons, ih h]

theorem keysA_setA_not_mem {β : Type} (m : List (String × β)) (k : String) (v : β)
    (h : k ∉ keysA m) : keysA (setA m k v) = keysA m ++ [k] := by
  induction m with
  | nil => simp [setA, keysA]
  | cons e r ih =>
    obtain ⟨k₀, w⟩ := e
    rw [keysA_cons] at h
    have hk : k₀ ≠ k := by
      intro hE
      exact h (by simp [hE])
    have h' : k ∉ keysA r := by
      intro hE
      exact h (by simp [hE])
    simp only [setA, if_neg hk, keysA_cons, ih h', List.cons_append]

theorem keysNodup_setA {β : Type} (m : List (String × β)) (k : String) (v : β)
    (h : (keysA m).Nodup) : (keysA (setA m k v)).Nodup := by
  by_cases hk : k ∈ keysA m
  · rw [keysA_setA_mem m k v hk]
    exact h
  · rw [keysA_setA_not_mem m k v hk]
    simp [List.nodup_append, h, hk]

theorem setA_forall {β : Type} (Q : String × β → Prop) (m : List (String × β))
    (k : String) (v : β) (hm : ∀ e ∈ m, Q e) (hv : Q (k, v)) :
    ∀ e ∈ setA m k v, Q e := by
  induction m with
  | nil =>
    intro e he
    simp [setA] at he
    simpa [he] using hv
  | cons e₀ r ih =>
    obtain ⟨k₀, w⟩ := e₀
    by_cases hk : k₀ = k
    · subst hk
      intro e he
      simp [setA] at he
      rcases he with he | he
      · simpa [he] using hv
      · exact hm e (List.mem_cons_of_mem _ he)
    · intro e he
      simp only [setA, if_neg hk] at he
      rcases List.mem_cons.mp he with he | he
      · exact hm e (by simp [he])
      · exact ih (fun e' he' => hm e' (List.mem_cons_of_mem _ he')) e he

/-! ### Bucket-increment lemmas -/

theorem incBucket_total_count (ty : BuyRent) (c : BreakdownRow) :
    (incBucket ty c).total_count = c.total_count + 1 := by
  cases ty <;> rfl

theorem incBucket_group (ty : BuyRent) (c : BreakdownRow) :
    (incBucket ty c).group = c.group := by
  cases ty <;> rfl

theorem incBucket_buy_rent (ty : BuyRent) (c : BreakdownRow) :
    (incBucket ty c).buy_count + (incBucket ty c).rent_count
      = c.buy_count + c.rent_count + 1 := by
  cases ty <;> simp [incBucket] <;> omega

theorem bumpBucket_nil (k : String) (ty : BuyRent) :
    bumpBucket [] k ty = [(k, incBucket ty ⟨k, 0, 0, 0⟩)] := by
  simp [bumpBucket, getA, setA]

theorem bumpBucket_cons_eq (k : String) (c : BreakdownRow)
    (r : List (String × BreakdownRow)) (ty : BuyRent) :
    bumpBucket ((k, c) :: r) k ty = (k, incBucket ty c) :: r := by
  simp [bumpBucket, getA, setA]

theorem bumpBucket_cons_ne (k₀ k : String) (c : BreakdownRow)
    (r : List (String × BreakdownRow)) (ty : BuyRent) (h : k₀ ≠ k) :
    bumpBucket ((k₀, c) :: r) k ty = (k₀, c) :: bumpBucket r k ty := by
  simp [bumpBucket, getA, setA, h]

theorem sumIfTotal_nil (p : String → Bool) : sumIfTotal p [] = 0 := rfl

theorem sumIfTotal_cons (p : String → Bool) (k : String) (c : BreakdownRow)
    (r : List (String × BreakdownRow)) :
    sumIfTotal p ((k, c) :: r)
      = (if p k then c.total_count else 0) + sumIfTotal p r := by
  simp [sumIfTotal]

theorem sumIfTotal_bump (p : String → Bool) (m : List (String × BreakdownRow))
    (k : String) (ty : BuyRent) :
    sumIfTotal p (bumpBucket m k ty)
      = sumIfTotal p m + (if p k then 1 else 0) := by
  induction m with
  | nil =>
    rw [bumpBucket_nil]
    by_cases hp : p k <;> simp [sumIfTotal, hp, incBucket_total_count]
  | cons e r ih =>
    obtain ⟨k₀, c⟩ := e
    by_cases h : k₀ = k
    · subst h
      rw [bumpBucket_cons_eq, sumIfTotal_cons, sumIfTotal_cons,
        incBucket_total_count]
      by_cases hp : p k₀ <;> simp [hp] <;> omega
    · rw [bumpBucket_cons_ne _ _ _ _ _ h, sumIfTotal_cons, sumIfTotal_cons, ih]
      omega

theorem getTotalA_nil (k : String) : getTotalA [] k = 0 := rfl

theorem getTotalA_bump (m : List (String × BreakdownRow)) (k k' : String)
    (ty : BuyRent) :
    getTotalA (bumpBucket m k ty) k' = getTotalA m k' + (if k = k' then 1 else 0) := by
  unfold bumpBucket
  unfold getTotalA
  rw [getA_setA]
  by_cases h : k = k'
  · subst h
    cases hA : getA m k <;> simp [hA, incBucket_total_count]
  · simp [h]

end Housing

namespace Housing

/-! ### Invariant preservation through a bucket bump -/

theorem bucketsWF_bump {m : List (String × BreakdownRow)} (k : String)
    (ty : BuyRent) (h : bucketsWF m) : bucketsWF (bumpBucket m k ty) := by
  have hv : ∀ c, c.buy_count + c.rent_count = c.total_count →
      (incBucket ty c).buy_count + (incBucket ty c).rent_count
        = (incBucket ty c).total_count := by
    intro c hc
    rw [incBucket_buy_rent, incBucket_total_count, hc]
  unfold bumpBucket
  cases hA : getA m k with
  | none =>
    refine setA_forall _ m k _ h ?_
    exact hv ⟨k, 0, 0, 0⟩ rfl
  | some c =>
    refine setA_forall _ m k _ h ?_
    exact hv c (h (k, c) (mem_of_getA hA))

theorem groupsInv_bump {m : List (String × BreakdownRow)} (k : String)
    (ty : BuyRent) (h : groupsInv m) : groupsInv (bumpBucket m k ty) := by
  unfold bumpBucket
  cases hA : getA m k with
  | none =>
    refine setA_forall _ m k _ h ?_
    show (incBucket ty ⟨k, 0, 0, 0⟩).group = k
    rw [incBucket_group]
  | some c =>
    refine setA_forall _ m k _ h ?_
    show (incBucket ty c).group = k
    rw [incBucket_group]
    exact h (k, c) (mem_of_getA hA)

theorem keysNodup_bump {m : List (String × BreakdownRow)} (k : String)
    (ty : BuyRent) (h : (keysA m).Nodup) : (keysA (bumpBucket m k ty)).Nodup :=
  keysNodup_setA _ _ _ h

theorem keysA_bump_subset {m : List (String × BreakdownRow)} (k : String)
    (ty : BuyRent) : ∀ k' ∈ keysA (bumpBucket m k ty), k' ∈ keysA m ∨ k' = k := by
  intro k' hk'
  unfold bumpBucket at hk'
  by_cases hmem : k ∈ keysA m
  · rw [keysA_setA_mem _ _ _ hmem] at hk'
    exact Or.inl hk'
  · rw [keysA_setA_not_mem _ _ _ hmem] at hk'
    rcases List.mem_append.mp hk' with h | h
    · exact Or.inl h
    · exact Or.inr (by simpa using h)

/-! ### Projections of one loop-body step -/

theorem processRow_regionMap (index : PortugalAdminIndex) (st : AggState)
    (r : ListingRow) (level : RegionLevel) :
    (processRow index st r).regionMap level
      = bumpBucket (st.regionMap level) (regionKeyOf index level r)
          (classifyListing r) := by
  cases level <;> rfl

theorem processRow_typology (index : PortugalAdminIndex) (st : AggState)
    (r : ListingRow) :
    (processRow index st r).typology
      = bumpBucket st.typology (typologyKeyOf r) (classifyListing r) := rfl

theorem processRow_totalBuy (index : PortugalAdminIndex) (st : AggState)
    (r : ListingRow) :
    (processRow index st r).totalBuy
      = st.totalBuy + (if classifyListing r = BuyRent.buy then 1 else 0) := rfl

theorem processRow_totalRent (index : PortugalAdminIndex) (st : AggState)
    (r : ListingRow) :
    (processRow index st r).totalRent
      = st.totalRent + (if classifyListing r = BuyRent.rent then 1 else 0) := rfl

/-! ### Folding a whole page sequence -/

theorem foldl_region_sumIf (index : PortugalAdminIndex) (level : RegionLevel)
    (p : String → Bool) :
    ∀ (rows : List ListingRow) (st : AggState),
      sumIfTotal p ((rows.foldl (processRow index) st).regionMap level)
        = sumIfTotal p (st.regionMap level)
            + rows.countP (fun r => p (regionKeyOf index level r)) := by
  intro rows
  induction rows with
  | nil => intro st; simp
  | cons r rest ih =>
    intro st
    rw [List.foldl_cons, ih, processRow_regionMap, sumIfTotal_bump,
      List.countP_cons]
    omega

theorem foldl_typology_sumIf (index : PortugalAdminIndex) (p : String → Bool) :
    ∀ (rows : List ListingRow) (st : AggState),
      sumIfTotal p (rows.foldl (processRow index) st).typology
        = sumIfTotal p st.typology
            + rows.countP (fun r => p (typologyKeyOf r)) := by
  intro rows
  induction rows with
  | nil => intro st; simp
  | cons r rest ih =>
    intro st
    rw [List.foldl_cons, ih, processRow_typology, sumIfTotal_bump,
      List.countP_cons]
    omega

theorem foldl_region_getTotal (index : PortugalAdminIndex) (level : RegionLevel)
    (k : String) :
    ∀ (rows : List ListingRow) (st : AggState),
      getTotalA ((rows.foldl (processRow index) st).regionMap level) k
        = getTotalA (st.regionMap level) k
            + rows.countP (fun r => regionKeyOf index level r == k) := by
  intro rows
  induction rows with
  | nil => intro st; simp
  | cons r rest ih =>
    intro st
    rw [List.foldl_cons, ih, processRow_regionMap, getTotalA_bump,
      List.countP_cons]
    by_cases h : regionKeyOf index level r = k <;> simp [h] <;> omega

theorem foldl_totalBuy (index : PortugalAdminIndex) :
    ∀ (rows : List ListingRow) (st : AggState),
      (rows.foldl (processRow index) st).totalBuy
        = st.totalBuy + rows.countP (fun r => classifyListing r == BuyRent.buy) := by
  intro rows
  induction rows with
  | nil => intro st; simp
  | cons r rest ih =>
    intro st
    rw [List.foldl_cons, ih, processRow_totalBuy, List.countP_cons]
    by_cases h : classifyListing r = BuyRent.buy <;> simp [h] <;> omega

theorem foldl_totalRent (index : PortugalAdminIndex) :
    ∀ (rows : List ListingRow) (st : AggState),
      (rows.foldl (processRow index) st).totalRent
        = st.totalRent + rows.countP (fun r => classifyListing r == BuyRent.rent) := by
  intro rows
  induction rows with
  | nil => intro st; simp
  | cons r rest ih =>
    intro st
    rw [List.foldl_cons, ih, processRow_totalRent, List.countP_cons]
    by_cases h : classifyListing r = BuyRent.rent <;> simp [h] <;> omega

theorem countP_buy_add_rent (rows : List ListingRow) :
    rows.countP (fun r => classifyListing r == BuyRent.buy)
      + rows.countP (fun r => classifyListing r == BuyRent.rent)
      = rows.length := by
  induction rows with
  | nil => simp
  | cons r rest ih =>
    rw [List.countP_cons, List.countP_cons]
    cases h : classifyListing r <;> simp [h] <;> omega

theorem foldl_region_wf (index : PortugalAdminIndex) (level : RegionLevel) :
    ∀ (rows : List ListingRow) (st : AggState),
      bucketsWF (st.regionMap level) →
        bucketsWF ((rows.foldl (processRow index) st).regionMap level) := by
  intro rows
  induction rows with
  | nil => intro st h; simpa using h
  | cons r rest ih =>
    intro st h
    rw [List.foldl_cons]
    exact ih _ (by rw [processRow_regionMap]; exact bucketsWF_bump _ _ h)

theorem foldl_typology_wf (index : PortugalAdminIndex) :
    ∀ (rows : List ListingRow) (st : AggState),
      bucketsWF st.typology →
        bucketsWF (rows.foldl (processRow index) st).typology := by
  intro rows
  induction rows with
  | nil => intro st h; simpa using h
  | cons r rest ih =>
    intro st h
    rw [List.foldl_cons]
    exact ih _ (by rw [processRow_typology]; exact bucketsWF_bump _ _ h)

theorem foldl_typology_groups (index : PortugalAdminIndex) :
    ∀ (rows : List ListingRow) (st : AggState),
      groupsInv st.typology →
        groupsInv (rows.foldl (processRow index) st).typology := by
  intro rows
  induction rows with
  | nil => intro st h; simpa using h
  | cons r rest ih =>
    intro st h
    rw [List.foldl_cons]
    exact ih _ (by rw [processRow_typology]; exact groupsInv_bump _ _ h)

theorem foldl_typology_nodup (index : PortugalAdminIndex) :
    ∀ (rows : List ListingRow) (st : AggState),
      (keysA st.typology).Nodup →
        (keysA (rows.foldl (processRow index) st).typology).Nodup := by
  intro rows
  induction rows with
  | nil => intro st h; simpa using h
  | cons r rest ih =>
    intro st h
    rw [List.foldl_cons]
    exact ih _ (by rw [processRow_typology]; exact keysNodup_bump _ _ h)

theorem foldl_region_nodup (index : PortugalAdminIndex) (level : RegionLevel) :
    ∀ (rows : List ListingRow) (st : AggState),
      (keysA (st.regionMap level)).Nodup →
        (keysA ((rows.foldl (processRow index) st).regionMap level)).Nodup := by
  intro rows
  induction rows with
  | nil => intro st h; simpa using h
  | cons r rest ih =>
    intro st h
    rw [List.foldl_cons]
    exact ih _ (by rw [processRow_regionMap]; exact keysNodup_bump _ _ h)

/-! ### The paginated scan equals a single fold -/

theorem scanPagesGo_eq (index : PortugalAdminIndex) (P : Nat) (hP : 0 < P) :
    ∀ (fuel : Nat) (rows : List ListingRow) (st : AggState),
      rows.length < fuel →
        scanPagesGo index P fuel st rows
          = (rows.foldl (processRow index) st, rows.length / P + 1) := by
  intro fuel
  induction fuel with
  | zero => intro rows st h; omega
  | succ f ih =>
    intro rows st h
    by_cases hpage : rows.take P = []
    · have hrows : rows = [] := by
        rcases List.take_eq_nil_iff.mp hpage with h0 | h0
        · omega
        · exact h0
      subst hrows
      simp [scanPagesGo, Nat.zero_div]
    · by_cases hshort : (rows.take P).length < P
      · have hlen : rows.length < P := by
          rw [List.length_take] at hshort
          omega
        have htake : rows.take P = rows := List.take_of_length_le (le_of_lt hlen)
        have hdiv : rows.length / P = 0 := Nat.div_eq_of_lt hlen
        simp only [scanPagesGo, if_neg hpage, if_pos hshort]
        rw [htake, hdiv]
      · have hlen : P ≤ rows.length := by
          rw [List.length_take] at hshort
          omega
      -- one full page, then the recursive scan of the remaining suffix
        have hrec : (rows.drop P).length < f := by
          rw [List.length_drop]
          omega
        simp only [scanPagesGo, if_neg hpage, if_neg hshort, ih _ _ hrec]
        have h1 : List.foldl (processRow index)
            (List.foldl (processRow index) st (List.take P rows)) (List.drop P rows)
              = List.foldl (processRow index) st rows := by
          rw [← List.foldl_append, List.take_append_drop]
        rw [h1, List.length_drop, Nat.div_eq_sub_div hP hlen]

theorem scanPages_eq (index : PortugalAdminIndex) (P : Nat) (hP : 0 < P)
    (st : AggState) (rows : List ListingRow) :
    scanPages index P st rows
      = (rows.foldl (processRow index) st, rows.length / P + 1) :=
  scanPagesGo_eq index P hP _ rows st (by omega)

theorem drillPagesGo_eq (P : Nat) (keep : ListingRow → Bool) (hP : 0 < P) :
    ∀ (fuel : Nat) (rows : List ListingRow),
      rows.length < fuel → drillPagesGo P keep fuel rows = rows.filter keep := by
  intro fuel
  induction fuel with
  | zero => intro rows h; omega
  | succ f ih =>
    intro rows h
    by_cases hpage : rows.take P = []
    · have hrows : rows = [] := by
        rcases List.take_eq_nil_iff.mp hpage with h0 | h0
        · omega
        · exact h0
      subst hrows
      simp [drillPagesGo]
    · by_cases hshort : (rows.take P).length < P
      · have hlen : rows.length < P := by
          rw [List.length_take] at hshort
          omega
        have htake : rows.take P = rows := List.take_of_length_le (le_of_lt hlen)
        simp only [drillPagesGo, if_neg hpage, if_pos hshort]
        rw [htake]
      · have hlen : P ≤ rows.length := by
          rw [List.length_take] at hshort
          omega
        have hrec : (rows.drop P).length < f := by
          rw [List.length_drop]
          omega
        simp only [drillPagesGo, if_neg hpage, if_neg hshort, ih _ hrec]
        rw [← List.filter_append, List.take_append_drop]

theorem drillPages_eq (P : Nat) (keep : ListingRow → Bool) (hP : 0 < P)
    (rows : List ListingRow) : drillPages P keep rows = rows.filter keep :=
  drillPagesGo_eq P keep hP _ rows (by omega)

end Housing

namespace Housing

/-! ### Sums through the final sorts -/

theorem regionMap_district (st : AggState) :
    st.regionMap RegionLevel.district = st.district := rfl

theorem regionMap_municipality (st : AggState) :
    st.regionMap RegionLevel.municipality = st.municipality := rfl

theorem regionMap_parish (st : AggState) :
    st.regionMap RegionLevel.parish = st.parish := rfl

theorem totalsOf_sortRegions (lc : String → String → Int) (l : List BreakdownRow) :
    totalsOf (sortRegions lc l) = totalsOf l := by
  unfold totalsOf sortRegions
  exact List.Perm.sum_eq ((List.perm_insertionSort _ l).map _)

theorem totalsOf_sortTypologies (lc : String → String → Int) (l : List BreakdownRow) :
    totalsOf (sortTypologies lc l) = totalsOf l := by
  unfold totalsOf sortTypologies
  exact List.Perm.sum_eq ((List.perm_insertionSort _ l).map _)

theorem totalsOf_valuesA (m : List (String × BreakdownRow)) :
    totalsOf (valuesA m) = sumIfTotal (fun _ => true) m := by
  unfold totalsOf valuesA sumIfTotal
  rw [List.map_map]
  rfl

theorem getImportDashboardMetrics_eq (lc : String → String → Int)
    (index : PortugalAdminIndex) (P : Nat) (rows : List ListingRow) (hP : 0 < P) :
    getImportDashboardMetrics lc index P rows
      = { total_buy := (rows.foldl (processRow index) initAggState).totalBuy
          total_rent := (rows.foldl (processRow index) initAggState).totalRent
          regions_district :=
            sortRegions lc (valuesA (rows.foldl (processRow index) initAggState).district)
          regions_municipality :=
            sortRegions lc (valuesA (rows.foldl (processRow index) initAggState).municipality)
          regions_parish :=
            sortRegions lc (valuesA (rows.foldl (processRow index) initAggState).parish)
          typologies :=
            sortTypologies lc (valuesA (rows.foldl (processRow index) initAggState).typology) } := by
  unfold getImportDashboardMetrics
  rw [scanPages_eq index P hP]

theorem foldl_region_sum_length (index : PortugalAdminIndex) (level : RegionLevel)
    (rows : List ListingRow) :
    sumIfTotal (fun _ => true)
        ((rows.foldl (processRow index) initAggState).regionMap level)
      = rows.length := by
  rw [foldl_region_sumIf]
  cases level <;> simp [initAggState, AggState.regionMap, sumIfTotal]

theorem foldl_typology_sum_length (index : PortugalAdminIndex)
    (rows : List ListingRow) :
    sumIfTotal (fun _ => true)
        (rows.foldl (processRow index) initAggState).typology
      = rows.length := by
  rw [foldl_typology_sumIf]
  simp [initAggState, sumIfTotal]

/-- C1: for every listing set, admin index and positive page size, a full
aggregation pass accounts for every row exactly once at each region level
and in the typology breakdown: each breakdown's totals sum to the number
of rows processed, which equals `total_buy + total_rent`; at each level
the bucket at any key — `"Unknown"` included, which receives precisely
the rows whose region fails to resolve at that level — counts exactly the
rows bucketed under that key; and every bucket satisfies
`buy_count + rent_count = total_count`. -/
theorem aggregation_totals_invariant (lc : String → String → Int)
    (index : PortugalAdminIndex) (P : Nat) (rows : List ListingRow)
    (hP : 0 < P) : C1Prop lc index P rows := by
  unfold C1Prop
  rw [getImportDashboardMetrics_eq lc index P rows hP, scanPages_eq index P hP]
  simp only
  refine ⟨?_, ?_, ?_, ?_, ?_, ?_, ?_, ?_, ?_, ?_⟩
  · rw [totalsOf_sortRegions, totalsOf_valuesA, ← regionMap_district,
      foldl_region_sum_length]
  · rw [totalsOf_sortRegions, totalsOf_valuesA, ← regionMap_municipality,
      foldl_region_sum_length]
  · rw [totalsOf_sortRegions, totalsOf_valuesA, ← regionMap_parish,
      foldl_region_sum_length]
  · rw [totalsOf_sortTypologies, totalsOf_valuesA, foldl_typology_sum_length]
  · rw [foldl_totalBuy, foldl_totalRent]
    have := countP_buy_add_rent rows
    simp only [initAggState]
    omega
  · intro level k
    rw [foldl_region_getTotal]
    cases level <;> simp [initAggState, AggState.regionMap, getTotalA, getA]
  · intro b hb
    rw [sortRegions, List.mem_insertionSort] at hb
    obtain ⟨e, he, rfl⟩ := List.mem_map.mp hb
    exact foldl_region_wf index RegionLevel.district rows initAggState
      (by intro e' he'; simp [initAggState, AggState.regionMap] at he') e he
  · intro b hb
    rw [sortRegions, List.mem_insertionSort] at hb
    obtain ⟨e, he, rfl⟩ := List.mem_map.mp hb
    exact foldl_region_wf index RegionLevel.municipality rows initAggState
      (by intro e' he'; simp [initAggState, AggState.regionMap] at he') e he
  · intro b hb
    rw [sortRegions, List.mem_insertionSort] at hb
    obtain ⟨e, he, rfl⟩ := List.mem_map.mp hb
    exact foldl_region_wf index RegionLevel.parish rows initAggState
      (by intro e' he'; simp [initAggState, AggState.regionMap] at he') e he
  · intro b hb
    rw [sortTypologies, List.mem_insertionSort] at hb
    obtain ⟨e, he, rfl⟩ := List.mem_map.mp hb
    exact foldl_typology_wf index rows initAggState
      (by intro e' he'; simp [initAggState] at he') e he

/-- Witness for the C1 theorem at a concrete input. -/
theorem aggregation_totals_invariant_witness :
    0 < 1 ∧ C1Prop lcZero emptyIndex 1 [blankRow] :=
  ⟨Nat.one_pos, aggregation_totals_invariant lcZero emptyIndex 1 [blankRow] Nat.one_pos⟩

/-- C4 counterexample: over a listing set of size N = 1 with page size
P = 1 the loop issues 2 page requests (the full page, then the empty page
that stops it), not ceil(N/P) = (1 + 1 - 1) / 1 = 1 as the claimed count
states. -/
theorem pagination_count_ne_ceil :
    (scanPages emptyIndex 1 initAggState [blankRow]).2
      ≠ (([blankRow] : List ListingRow).length + 1 - 1) / 1 := by
  decide

/-- C4 (amended): for every listing set of size N, admin index and
positive page size P, the aggregation performs exactly `N / P + 1` page
requests — which equals `ceil(N/P) = (N + P - 1) / P` exactly when P does
not divide N; when P divides N (including N = 0) one further request is
needed to observe the short (empty) page that terminates the scan, since
no total-count field is consulted. -/
theorem pagination_request_count (index : PortugalAdminIndex) (P : Nat)
    (rows : List ListingRow) (hP : 0 < P) :
    (scanPages index P initAggState rows).2 = rows.length / P + 1 ∧
    (rows.length % P ≠ 0 →
      (scanPages index P initAggState rows).2 = (rows.length + P - 1) / P) := by
  have h1 : (scanPages index P initAggState rows).2 = rows.length / P + 1 := by
    rw [scanPages_eq index P hP]
  refine ⟨h1, fun hmod => ?_⟩
  rw [h1]
  have hlen1 : 1 ≤ rows.length := by
    rcases Nat.eq_zero_or_pos rows.length with h0 | h0
    · rw [h0] at hmod
      simp at hmod
    · exact h0
  have hndvd : ¬ P ∣ rows.length := by
    intro hd
    obtain ⟨c, hc⟩ := hd
    rw [hc] at hmod
    simp [Nat.mul_mod_right] at hmod
  have hstep : rows.length + P - 1 = (rows.length - 1) + P := by omega
  rw [hstep, Nat.add_div_right _ hP]
  have hsucc := Nat.succ_div (rows.length - 1) P
  rw [show rows.length - 1 + 1 = rows.length from by omega] at hsucc
  rw [hsucc, if_neg hndvd]

/-- Witness for the C4 theorem at a concrete input. -/
theorem pagination_request_count_witness :
    0 < 2 ∧
    ((scanPages emptyIndex 2 initAggState [blankRow, blankRow, blankRow]).2
        = ([blankRow, blankRow, blankRow] : List ListingRow).length / 2 + 1 ∧
      (([blankRow, blankRow, blankRow] : List ListingRow).length % 2 ≠ 0 →
        (scanPages emptyIndex 2 initAggState [blankRow, blankRow, blankRow]).2
          = (([blankRow, blankRow, blankRow] : List ListingRow).length + 2 - 1) / 2)) :=
  ⟨by decide, pagination_request_count emptyIndex 2 [blankRow, blankRow, blankRow] (by decide)⟩

end Housing

namespace Housing

/-! ### Shape of inferred typology labels -/

theorem data_mk (l : List Char) : (String.mk l).data = l := rfl

theorem data_append (s t : String) : (s ++ t).data = s.data ++ t.data := rfl

theorem map_id_of_forall {α : Type} (f : α → α) :
    ∀ l : List α, (∀ c ∈ l, f c = c) → l.map f = l := by
  intro l
  induction l with
  | nil => intro _; rfl
  | cons c r ih =>
    intro h
    rw [List.map_cons, h c (List.mem_cons_self c r),
      ih (fun c' hc' => h c' (List.mem_cons_of_mem _ hc'))]

theorem isTokChar_of_digit {c : Char} (h : isDigitChar c = true) :
    isTokChar c = true := by
  simp [isTokChar, h]

theorem digitCands_digits (cs : List Char) :
    ∀ cand ∈ digitCands cs, ∀ c ∈ cand.1.data, isDigitChar c = true := by
  match cs with
  | [] =>
    intro cand h
    simp [digitCands] at h
  | [a] =>
    intro cand h c hc
    by_cases ha : isDigitChar a
    · simp [digitCands, ha] at h
      rw [h] at hc
      have hc' : c ∈ [a] := hc
      simp at hc'
      rw [hc']
      exact ha
    · simp [digitCands, ha] at h
  | a :: b :: r =>
    intro cand h c hc
    by_cases ha : isDigitChar a
    · by_cases hb : isDigitChar b
      · simp [digitCands, ha, hb] at h
        rcases h with h | h <;> rw [h] at hc
        · have hc' : c ∈ [a, b] := hc
          rcases (by simpa using hc' : c = a ∨ c = b) with rfl | rfl
          · exact ha
          · exact hb
        · have hc' : c ∈ [a] := hc
          rw [(by simpa using hc' : c = a)]
          exact ha
      · simp [digitCands, ha, hb] at h
        rw [h] at hc
        have hc' : c ∈ [a] := hc
        rw [(by simpa using hc' : c = a)]
        exact ha
    · simp [digitCands, ha] at h

theorem tryPlusPart_digits (rest : List Char) (extra : String)
    (h : tryPlusPart rest = some extra) : ∀ c ∈ extra.data, isDigitChar c = true := by
  unfold tryPlusPart at h
  split at h
  · obtain ⟨cand, hmem, hf⟩ := List.exists_of_findSome?_eq_some h
    by_cases hb : boundaryAfter cand.2
    · simp [hb] at hf
      rw [← hf]
      exact digitCands_digits _ cand hmem
    · simp [hb] at hf
  · simp at h

theorem tryFromT_digits (afterT : List Char) (base : String) (extra : Option String)
    (h : tryFromT afterT = some (base, extra)) :
    (∀ c ∈ base.data, isDigitChar c = true) ∧
      (∀ e, extra = some e → ∀ c ∈ e.data, isDigitChar c = true) := by
  unfold tryFromT at h
  obtain ⟨cand, hmem, hf⟩ := List.exists_of_findSome?_eq_some h
  have hbase := digitCands_digits _ cand hmem
  split at hf
  · rename_i e' heq'
    have h1 : cand.1 = base ∧ some e' = extra := by
      have := hf
      simp at this
      exact ⟨this.1, this.2⟩
    obtain ⟨hb1, hb2⟩ := h1
    refine ⟨hb1 ▸ hbase, ?_⟩
    intro e he
    rw [← hb2] at he
    have : e' = e := by simpa using he
    rw [← this]
    exact tryPlusPart_digits _ _ heq'
  · by_cases hb : boundaryAfter cand.2
    · simp [hb] at hf
      refine ⟨hf.1 ▸ hbase, ?_⟩
      intro e he
      rw [← hf.2] at he
      simp at he
    · simp [hb] at hf

theorem scanTok_digits :
    ∀ (l : List Char) (prev : Option Char) (base : String) (extra : Option String),
      scanTok l prev = some (base, extra) →
      (∀ c ∈ base.data, isDigitChar c = true) ∧
        (∀ e, extra = some e → ∀ c ∈ e.data, isDigitChar c = true) := by
  intro l
  induction l with
  | nil =>
    intro prev base extra h
    simp [scanTok] at h
  | cons c rest ih =>
    intro prev base extra h
    unfold scanTok at h
    split at h
    · split at h
      · rename_i res heq
        have hres : res = (base, extra) := by simpa using h
        rw [hres] at heq
        exact tryFromT_digits rest base extra heq
      · exact ih _ _ _ h
    · exact ih _ _ _ h

theorem digitChar_isDigit (d : Nat) (h : d < 10) :
    isDigitChar (Nat.digitChar d) = true := by
  interval_cases d <;> decide

theorem natDecimalGo_digits :
    ∀ (fuel n : Nat) (acc : List Char),
      (∀ c ∈ acc, isDigitChar c = true) →
        ∀ c ∈ natDecimalGo fuel n acc, isDigitChar c = true := by
  intro fuel
  induction fuel with
  | zero =>
    intro n acc hacc
    simpa [natDecimalGo] using hacc
  | succ f ih =>
    intro n acc hacc c hc
    unfold natDecimalGo at hc
    split at hc
    · rename_i hn
      rcases List.mem_cons.mp hc with rfl | hc'
      · exact digitChar_isDigit n hn
      · exact hacc c hc'
    · refine ih _ _ ?_ c hc
      intro c' hc'
      rcases List.mem_cons.mp hc' with rfl | hc''
      · exact digitChar_isDigit _ (Nat.mod_lt _ (by omega))
      · exact hacc c' hc''

theorem typologyShape_of_infer (bedrooms : Option Int) (title : Option String) :
    TypologyShape (inferTypologyLabel bedrooms title) := by
  cases h : findTypologyToken (title.getD "") with
  | some res =>
    obtain ⟨base, extra⟩ := res
    have hd := scanTok_digits (title.getD "").data none base extra (by rw [← h]; rfl)
    cases extra with
    | some e =>
      rw [show inferTypologyLabel bedrooms title = "T" ++ base ++ "+" ++ e from by
        simp [inferTypologyLabel, h]]
      right
      intro c hc
      rw [data_append, data_append, data_append] at hc
      simp at hc
      rcases hc with hc | hc | hc | hc
      · rw [(by simpa using hc : c = 'T')]
        decide
      · exact isTokChar_of_digit (hd.1 c hc)
      · rw [(by simpa using hc : c = '+')]
        decide
      · exact isTokChar_of_digit (hd.2 e rfl c hc)
    | none =>
      rw [show inferTypologyLabel bedrooms title = "T" ++ base from by
        simp [inferTypologyLabel, h]]
      right
      intro c hc
      rw [data_append] at hc
      simp at hc
      rcases hc with hc | hc
      · rw [(by simpa using hc : c = 'T')]
        decide
      · exact isTokChar_of_digit (hd.1 c hc)
  | none =>
    cases bedrooms with
    | none =>
      rw [show inferTypologyLabel none title = "Unknown" from by
        simp [inferTypologyLabel, h]]
      left
      rfl
    | some b =>
      by_cases hb : (0 : Int) ≤ b
      · rw [show inferTypologyLabel (some b) title = "T" ++ natDecimal b.toNat from by
          simp [inferTypologyLabel, h, hb]]
        right
        intro c hc
        rw [data_append] at hc
        simp at hc
        rcases hc with hc | hc
        · rw [(by simpa using hc : c = 'T')]
          decide
        · exact isTokChar_of_digit
            (natDecimalGo_digits _ _ [] (by simp) c hc)
      · rw [show inferTypologyLabel (some b) title = "Unknown" from by
          simp [inferTypologyLabel, h, hb]]
        left
        rfl

end Housing

namespace Housing

/-! ### Uppercasing and trimming are the identity on typology labels -/

theorem digit_range {c : Char} (h : isDigitChar c = true) :
    48 ≤ c.toNat ∧ c.toNat ≤ 57 := by
  simpa [isDigitChar] using h

theorem tok_cases {c : Char} (h : isTokChar c = true) :
    c = 'T' ∨ c = '+' ∨ isDigitChar c = true := by
  by_cases hT : c = 'T'
  · exact Or.inl hT
  · by_cases hP : c = '+'
    · exact Or.inr (Or.inl hP)
    · refine Or.inr (Or.inr ?_)
      simpa [isTokChar, hT, hP] using h

theorem upChar_of_tok {c : Char} (h : isTokChar c = true) : upChar c = c := by
  rcases tok_cases h with rfl | rfl | hd
  · decide
  · decide
  · have hrange := digit_range hd
    unfold upChar
    rw [if_neg]
    omega

theorem isWsChar_of_tok {c : Char} (h : isTokChar c = true) :
    isWsChar c = false := by
  rcases tok_cases h with rfl | rfl | hd
  · decide
  · decide
  · have hrange := digit_range hd
    have h32 : c.toNat ≠ 32 := by omega
    have h9 : c.toNat ≠ 9 := by omega
    have h10 : c.toNat ≠ 10 := by omega
    have h13 : c.toNat ≠ 13 := by omega
    simp [isWsChar, h32, h9, h10, h13]

theorem jsToUpper_tokenForm {s : String} (h : TokenForm s) : jsToUpper s = s := by
  unfold jsToUpper
  obtain ⟨data⟩ := s
  rw [data_mk]
  rw [map_id_of_forall upChar data (fun c hc => upChar_of_tok (h c hc))]

theorem dropWhile_eq_self_of (p : Char → Bool) (l : List Char)
    (h : ∀ c ∈ l, p c = false) : l.dropWhile p = l := by
  cases l with
  | nil => rfl
  | cons c r =>
    rw [List.dropWhile_cons, h c (List.mem_cons_self c r)]
    simp

theorem trimChars_eq_self (l : List Char) (h : ∀ c ∈ l, isWsChar c = false) :
    trimChars l = l := by
  unfold trimChars
  rw [dropWhile_eq_self_of _ _ h,
    dropWhile_eq_self_of _ _ (fun c hc => h c (List.mem_reverse.mp hc)),
    List.reverse_reverse]

theorem jsTrim_tokenForm {s : String} (h : TokenForm s) : jsTrim s = s := by
  unfold jsTrim
  obtain ⟨data⟩ := s
  rw [data_mk]
  rw [trimChars_eq_self data (fun c hc => isWsChar_of_tok (h c hc))]

theorem jsTrim_shape {s : String} (h : TypologyShape s) : jsTrim s = s := by
  rcases h with rfl | h
  · decide
  · exact jsTrim_tokenForm h

theorem not_tokenForm_UNKNOWN : ¬ TokenForm "UNKNOWN" := by
  intro h
  have hU := h 'U' (by decide)
  exact absurd hU (by decide)

theorem typology_upper_inj {x y : String} (hx : TypologyShape x)
    (hy : TypologyShape y) (h : jsToUpper x = jsToUpper y) : x = y := by
  rcases hx with rfl | hx
  · rcases hy with rfl | hy
    · rfl
    · exfalso
      rw [jsToUpper_tokenForm hy] at h
      rw [show jsToUpper "Unknown" = "UNKNOWN" from by decide] at h
      rw [← h] at hy
      exact not_tokenForm_UNKNOWN hy
  · rcases hy with rfl | hy
    · exfalso
      rw [jsToUpper_tokenForm hx] at h
      rw [show jsToUpper "Unknown" = "UNKNOWN" from by decide] at h
      rw [h] at hx
      exact not_tokenForm_UNKNOWN hx
    · rw [jsToUpper_tokenForm hx, jsToUpper_tokenForm hy] at h
      exact h

/-! ### Summing a single bucket -/

theorem sumIfTotal_zero (p : String → Bool) (m : List (String × BreakdownRow))
    (h : ∀ k ∈ keysA m, p k = false) : sumIfTotal p m = 0 := by
  induction m with
  | nil => rfl
  | cons e r ih =>
    obtain ⟨k₀, c⟩ := e
    rw [sumIfTotal_cons, h k₀ (by simp [keysA_cons]),
      ih (fun k hk => h k (by simp [keysA_cons, hk]))]
    simp

theorem sumIfTotal_single (p : String → Bool) (m : List (String × BreakdownRow))
    (k : String) (hnd : (keysA m).Nodup) (hk : k ∈ keysA m)
    (hiff : ∀ k' ∈ keysA m, p k' = true ↔ k' = k) :
    sumIfTotal p m = getTotalA m k := by
  induction m with
  | nil => simp [keysA] at hk
  | cons e r ih =>
    obtain ⟨k₀, c⟩ := e
    rw [keysA_cons] at hnd hk hiff
    have hnd' := List.nodup_cons.mp hnd
    by_cases hk₀ : k₀ = k
    · subst hk₀
      have hp : p k₀ = true := (hiff k₀ (by simp)).mpr rfl
      rw [sumIfTotal_cons, hp]
      have hzero : sumIfTotal p r = 0 := by
        refine sumIfTotal_zero p r ?_
        intro k' hk'
        by_cases hpk' : p k' = true
        · exfalso
          have : k' = k₀ := (hiff k' (by simp [hk'])).mp hpk'
          rw [this] at hk'
          exact hnd'.1 hk'
        · simpa using hpk'
      rw [hzero]
      simp [getTotalA, getA]
    · have hpk₀ : p k₀ = false := by
        by_cases hpk : p k₀ = true
        · exact absurd ((hiff k₀ (by simp)).mp hpk) hk₀
        · simpa using hpk
      have hkr : k ∈ keysA r := by
        rcases List.mem_cons.mp hk with h | h
        · exact absurd h.symm hk₀
        · exact h
      rw [sumIfTotal_cons, hpk₀]
      rw [ih hnd'.2 hkr (fun k' hk' => hiff k' (by simp [hk']))]
      simp [getTotalA, getA, hk₀]

/-! ### Typology keys of the aggregation are inferred labels -/

theorem foldl_typology_keyshape (index : PortugalAdminIndex) :
    ∀ (rows : List ListingRow) (st : AggState),
      (∀ k ∈ keysA st.typology, TypologyShape k) →
        ∀ k ∈ keysA (rows.foldl (processRow index) st).typology, TypologyShape k := by
  intro rows
  induction rows with
  | nil => intro st h; simpa using h
  | cons r rest ih =>
    intro st h
    rw [List.foldl_cons]
    refine ih _ ?_
    rw [processRow_typology]
    intro k hk
    rcases keysA_bump_subset _ _ _ hk with hmem | rfl
    · exact h k hmem
    · exact typologyShape_of_infer r.bedrooms r.title

end Housing

namespace Housing

/-! ### Drill-down lengths as row counts -/

theorem locationPartByLevel_eq (index : PortugalAdminIndex) (level : RegionLevel)
    (r : ListingRow) :
    locationPartByLevel r.location_text level index
      = normalizeLocationPart (regionKeyOf index level r) := by
  cases level <;> rfl

theorem byRegion_len (index : PortugalAdminIndex) (P : Nat) (level : RegionLevel)
    (label : String) (rows : List ListingRow) (hP : 0 < P) :
    (getDashboardListingsByRegion index P level label rows).length
      = rows.countP
          (fun r => normalizeLocationPart (regionKeyOf index level r) == normTarget label) := by
  simp only [getDashboardListingsByRegion]
  rw [drillPages_eq _ _ hP, ← List.countP_eq_length_filter]
  refine List.countP_congr ?_
  intro r _
  simp only [decide_eq_true_eq, beq_iff_eq, locationPartByLevel_eq]
  exact Iff.rfl

theorem byTypology_len (P : Nat) (label : String) (rows : List ListingRow)
    (hP : 0 < P) :
    (getDashboardListingsByTypology P label rows).length
      = rows.countP
          (fun r => jsToUpper (typologyKeyOf r) == jsToUpper (jsTrim label)) := by
  simp only [getDashboardListingsByTypology]
  rw [drillPages_eq _ _ hP, ← List.countP_eq_length_filter]
  refine List.countP_congr ?_
  intro r _
  simp only [decide_eq_true_eq, beq_iff_eq]

/-- C2 (amended): each drill-down returns exactly the rows whose resolved
label (null rendered `"Unknown"`, then normalized / uppercased like the
query) matches the queried label, so its length is the sum of
`total_count` over all same-level buckets whose label collapses to the
same target.  For typology buckets this always equals the queried
bucket's own `total_count` (uppercasing is injective on inferred labels);
for region buckets it equals the bucket's `total_count` whenever the
level's bucket labels normalize injectively — distinct bucket labels that
normalize equal (possible when parish records spell a parent differently,
see the counterexample) are merged by the drill-down though the
aggregation counted them apart. -/
theorem drilldown_counts (index : PortugalAdminIndex) (Pagg Pdrill : Nat)
    (rows : List ListingRow) (hPa : 0 < Pagg) (hPd : 0 < Pdrill) :
    C2Prop index Pagg Pdrill rows := by
  unfold C2Prop
  rw [scanPages_eq index Pagg hPa]
  simp only
  refine ⟨?_, ?_, ?_, ?_⟩
  · intro level label
    rw [byRegion_len index Pdrill level label rows hPd,
      foldl_region_sumIf index level
        (fun k => normalizeLocationPart k == normTarget label) rows initAggState]
    cases level <;> simp [initAggState, AggState.regionMap, sumIfTotal]
  · intro label
    rw [byTypology_len Pdrill label rows hPd,
      foldl_typology_sumIf index
        (fun k => jsToUpper k == jsToUpper (jsTrim label)) rows initAggState]
    simp [initAggState, sumIfTotal]
  · intro label hmem
    have hshape := foldl_typology_keyshape index rows initAggState
      (by intro k hk; simp [initAggState, keysA] at hk)
    have hnodup := foldl_typology_nodup index rows initAggState
      (by simp [initAggState, keysA])
    have hlabel_shape := hshape label hmem
    have hiff : ∀ k' ∈ keysA (rows.foldl (processRow index) initAggState).typology,
        ((jsToUpper k' == jsToUpper (jsTrim label)) = true) ↔ k' = label := by
      intro k' hk'
      rw [jsTrim_shape hlabel_shape]
      constructor
      · intro hb
        exact typology_upper_inj (hshape k' hk') hlabel_shape (by simpa using hb)
      · rintro rfl
        simp
    have hsingle := sumIfTotal_single
      (fun k => jsToUpper k == jsToUpper (jsTrim label))
      ((rows.foldl (processRow index) initAggState).typology) label hnodup hmem hiff
    have hsum : sumIfTotal (fun k => jsToUpper k == jsToUpper (jsTrim label))
        (rows.foldl (processRow index) initAggState).typology
        = rows.countP (fun r => jsToUpper (typologyKeyOf r) == jsToUpper (jsTrim label)) := by
      rw [foldl_typology_sumIf]
      simp [initAggState, sumIfTotal]
    rw [byTypology_len Pdrill label rows hPd, ← hsum]
    exact hsingle
  · intro level label hmem hne hinj
    have htarget : normTarget label = normalizeLocationPart label := by
      rw [normTarget, jsOrStr, if_neg hne]
    have hnodup := foldl_region_nodup index level rows initAggState
      (by cases level <;> simp [initAggState, AggState.regionMap, keysA])
    have hiff : ∀ k' ∈ keysA ((rows.foldl (processRow index) initAggState).regionMap level),
        ((normalizeLocationPart k' == normTarget label) = true) ↔ k' = label := by
      intro k' hk'
      rw [htarget]
      constructor
      · intro hb
        exact hinj k' hk' label hmem (by simpa using hb)
      · rintro rfl
        simp
    have hsingle := sumIfTotal_single
      (fun k => normalizeLocationPart k == normTarget label)
      ((rows.foldl (processRow index) initAggState).regionMap level) label hnodup hmem hiff
    have hsum : sumIfTotal (fun k => normalizeLocationPart k == normTarget label)
        ((rows.foldl (processRow index) initAggState).regionMap level)
        = rows.countP
            (fun r => normalizeLocationPart (regionKeyOf index level r) == normTarget label) := by
      rw [foldl_region_sumIf]
      cases level <;> simp [initAggState, AggState.regionMap, sumIfTotal]
    rw [byRegion_len index Pdrill level label rows hPd, ← hsum]
    exact hsingle

/-- C2 counterexample: under `collideIndex` the aggregation produces two
district buckets `"PORTO"` (from the parish record's district spelling)
and `"Porto"` (from the district map), each with `total_count` 1, but the
drill-down for label `"PORTO"` — which matches on normalized text —
returns both rows, so the claimed equality with the bucket's
`total_count` fails. -/
theorem drilldown_count_ne_bucket :
    getTotalA ((scanPages collideIndex 5000 initAggState collideRows).1.district)
        "PORTO" = 1 ∧
    (getDashboardListingsByRegion collideIndex 1000 RegionLevel.district
        "PORTO" collideRows).length = 2 := by
  decide

/-- Witness for the C2 theorem at a concrete input. -/
theorem drilldown_counts_witness :
    0 < 1 ∧ C2Prop emptyIndex 1 1 [blankRow] :=
  ⟨Nat.one_pos, drilldown_counts emptyIndex 1 1 [blankRow] Nat.one_pos Nat.one_pos⟩

end Housing

namespace Housing

/-! ### The comparator orders -/

instance instDecRLex (lc : String → String → Int) : DecidableRel (rLex lc) :=
  fun a b => Int.decLe _ _

instance instDecRStar (lc : String → String → Int) : DecidableRel (rStar lc) :=
  fun a b => by unfold rStar; infer_instance

theorem rLex_iff (lc : String → String → Int) (a b : BreakdownRow) :
    rLex lc a b
      ↔ (b.total_count < a.total_count
          ∨ (b.total_count = a.total_count ∧ lc a.group b.group ≤ 0)) := by
  unfold rLex regionCmp jsOrInt
  split_ifs with h
  · have heq : b.total_count = a.total_count := by omega
    simp [heq]
  · constructor
    · intro hle
      left
      omega
    · rintro (hlt | ⟨heq, _⟩)
      · omega
      · exfalso
        apply h
        omega

theorem rLex_total (lc : String → String → Int) (htot : LcTotal lc)
    (a b : BreakdownRow) : rLex lc a b ∨ rLex lc b a := by
  rw [rLex_iff, rLex_iff]
  rcases Nat.lt_trichotomy a.total_count b.total_count with h | h | h
  · right; left; omega
  · rcases htot a.group b.group with hl | hl
    · left; right; exact ⟨h.symm, hl⟩
    · right; right; exact ⟨h, hl⟩
  · left; left; omega

theorem rLex_trans (lc : String → String → Int) (htr : LcTrans lc)
    (a b c : BreakdownRow) (hab : rLex lc a b) (hbc : rLex lc b c) :
    rLex lc a c := by
  rw [rLex_iff] at hab hbc ⊢
  rcases hab with h1 | ⟨h1, h1'⟩
  · rcases hbc with h2 | ⟨h2, _⟩
    · left; omega
    · left; omega
  · rcases hbc with h2 | ⟨h2, h2'⟩
    · left; omega
    · right
      exact ⟨by omega, htr _ _ _ h1' h2'⟩

theorem rStar_total (lc : String → String → Int) (htot : LcTotal lc)
    (a b : BreakdownRow) : rStar lc a b ∨ rStar lc b a := by
  unfold rStar
  by_cases ha : a.group = "Unknown"
  · by_cases hb : b.group = "Unknown"
    · simp [ha, hb]
    · simp [ha, hb]
  · by_cases hb : b.group = "Unknown"
    · simp [ha, hb]
    · simp [ha, hb]
      exact rLex_total lc htot a b

theorem rStar_trans (lc : String → String → Int) (htr : LcTrans lc)
    (a b c : BreakdownRow) (hab : rStar lc a b) (hbc : rStar lc b c) :
    rStar lc a c := by
  unfold rStar at hab hbc ⊢
  by_cases ha : a.group = "Unknown"
  · rw [if_pos ha] at hab
    rw [if_pos hab] at hbc
    rw [if_pos ha]
    exact hbc
  · rw [if_neg ha] at hab ⊢
    by_cases hc : c.group = "Unknown"
    · rw [if_pos hc]
      trivial
    · rw [if_neg hc]
      by_cases hb : b.group = "Unknown"
      · rw [if_pos hb] at hbc
        exact absurd hbc hc
      · rw [if_neg hb] at hab
        rw [if_neg hb, if_neg hc] at hbc
        exact rLex_trans lc htr a b c hab hbc

/-! ### Replacing the typology comparator by its order -/

theorem typologyCmp_agree (lc : String → String → Int) {a b : BreakdownRow}
    (h : ¬(a.group = "Unknown" ∧ b.group = "Unknown")) :
    (typologyCmp lc a b ≤ 0) ↔ rStar lc a b := by
  unfold typologyCmp rStar
  by_cases ha : a.group = "Unknown"
  · have hb : ¬ b.group = "Unknown" := fun hb => h ⟨ha, hb⟩
    rw [if_pos ha, if_pos ha]
    constructor
    · intro h1
      omega
    · intro h1
      exact absurd h1 hb
  · by_cases hb : b.group = "Unknown"
    · rw [if_neg ha, if_pos hb, if_neg ha, if_pos hb]
      constructor
      · intro _
        trivial
      · intro _
        omega
    · rw [if_neg ha, if_neg hb, if_neg ha, if_neg hb]
      rfl

theorem orderedInsert_congr {α : Type} (r s : α → α → Prop)
    [DecidableRel r] [DecidableRel s] (a : α) :
    ∀ l : List α, (∀ b ∈ l, r a b ↔ s a b) →
      l.orderedInsert r a = l.orderedInsert s a := by
  intro l
  induction l with
  | nil => intro _; rfl
  | cons b t ih =>
    intro h
    have hb := h b (List.mem_cons_self b t)
    by_cases hr : r a b
    · rw [List.orderedInsert, List.orderedInsert, if_pos hr, if_pos (hb.mp hr)]
    · rw [List.orderedInsert, List.orderedInsert, if_neg hr,
        if_neg (fun hs => hr (hb.mpr hs)),
        ih (fun b' hb' => h b' (List.mem_cons_of_mem _ hb'))]

theorem insertionSort_congr {α : Type} (r s : α → α → Prop)
    [DecidableRel r] [DecidableRel s] :
    ∀ l : List α,
      List.Pairwise (fun a b => (r a b ↔ s a b) ∧ (r b a ↔ s b a)) l →
        l.insertionSort r = l.insertionSort s := by
  intro l
  induction l with
  | nil => intro _; rfl
  | cons a t ih =>
    intro hp
    rw [List.pairwise_cons] at hp
    calc (a :: t).insertionSort r
        = (t.insertionSort r).orderedInsert r a := rfl
      _ = (t.insertionSort r).orderedInsert s a :=
          orderedInsert_congr r s a _
            (fun b hb => (hp.1 b ((List.mem_insertionSort r).mp hb)).1)
      _ = (t.insertionSort s).orderedInsert s a := by rw [ih hp.2]
      _ = (a :: t).insertionSort s := rfl

theorem values_group_ne (m : List (String × BreakdownRow)) (hg : groupsInv m)
    (hnd : (keysA m).Nodup) :
    List.Pairwise (fun a b : BreakdownRow => a.group ≠ b.group) (valuesA m) := by
  unfold valuesA
  rw [List.pairwise_map]
  have hnd' : List.Pairwise (fun e1 e2 : String × BreakdownRow => e1.1 ≠ e2.1) m :=
    List.pairwise_map.mp hnd
  refine hnd'.imp_of_mem ?_
  intro e1 e2 h1 h2 hne
  rw [hg e1 h1, hg e2 h2]
  exact hne

end Housing

namespace Housing

theorem sorted_sortRegions (lc : String → String → Int) (htot : LcTotal lc)
    (htr : LcTrans lc) (l : List BreakdownRow) :
    List.Sorted (rLex lc) (sortRegions lc l) := by
  letI : IsTotal BreakdownRow (rLex lc) := ⟨rLex_total lc htot⟩
  letI : IsTrans BreakdownRow (rLex lc) := ⟨fun a b c => rLex_trans lc htr a b c⟩
  exact List.sorted_insertionSort (rLex lc) l

theorem sorted_sortTypologies (lc : String → String → Int) (htot : LcTotal lc)
    (htr : LcTrans lc) (l : List BreakdownRow)
    (hpw : List.Pairwise (fun a b : BreakdownRow => a.group ≠ b.group) l) :
    List.Sorted (rStar lc) (sortTypologies lc l) := by
  letI : IsTotal BreakdownRow (rStar lc) := ⟨rStar_total lc htot⟩
  letI : IsTrans BreakdownRow (rStar lc) := ⟨fun a b c => rStar_trans lc htr a b c⟩
  have hcongr : sortTypologies lc l = l.insertionSort (rStar lc) := by
    unfold sortTypologies
    refine insertionSort_congr _ _ l ?_
    refine hpw.imp ?_
    intro a b hne
    have h1 : ¬(a.group = "Unknown" ∧ b.group = "Unknown") :=
      fun h => hne (h.1.trans h.2.symm)
    have h2 : ¬(b.group = "Unknown" ∧ a.group = "Unknown") :=
      fun h => hne (h.2.trans h.1.symm)
    exact ⟨typologyCmp_agree lc h1, typologyCmp_agree lc h2⟩
  rw [hcongr]
  exact List.sorted_insertionSort (rStar lc) l

/-- C8: in every aggregation result (any index, positive page size,
listing set) and for every locale comparison whose `≤ 0` relation is
total and transitive, the region breakdowns are sorted non-increasing by
`total_count` with ties in ascending locale order, and the typology
breakdown is sorted the same way except that the `"Unknown"` bucket is
placed after every other bucket regardless of its count. -/
theorem breakdown_sort_order (lc : String → String → Int)
    (index : PortugalAdminIndex) (P : Nat) (rows : List ListingRow)
    (hP : 0 < P) (htot : LcTotal lc) (htr : LcTrans lc) :
    C8Prop lc (getImportDashboardMetrics lc index P rows) := by
  unfold C8Prop
  rw [getImportDashboardMetrics_eq lc index P rows hP]
  refine ⟨?_, ?_, ?_, ?_⟩
  · exact sorted_sortRegions lc htot htr _
  · exact sorted_sortRegions lc htot htr _
  · exact sorted_sortRegions lc htot htr _
  · refine sorted_sortTypologies lc htot htr _ ?_
    refine values_group_ne _ ?_ ?_
    · exact foldl_typology_groups index rows initAggState
        (by intro e he; simp [initAggState] at he)
    · exact foldl_typology_nodup index rows initAggState
        (by simp [initAggState, keysA])

/-- Witness for the C8 theorem at a concrete input. -/
theorem breakdown_sort_order_witness :
    0 < 1 ∧ LcTotal lcZero ∧ LcTrans lcZero ∧
      C8Prop lcZero (getImportDashboardMetrics lcZero emptyIndex 1 [blankRow]) :=
  ⟨Nat.one_pos, fun _ _ => Or.inl (le_refl 0), fun _ _ _ _ _ => le_refl 0,
    breakdown_sort_order lcZero emptyIndex 1 [blankRow] Nat.one_pos
      (fun _ _ => Or.inl (le_refl 0)) (fun _ _ _ _ _ => le_refl 0)⟩

end Housing

namespace Housing

/-! ### The centroid merge -/

theorem mergeCollidingRows_go (label : String) :
    ∀ (rs : List RawCoordRow) (e : AdminAreaOption),
      rs.foldl
          (fun acc r =>
            match acc with
            | none => some (mkAreaOption label r)
            | some existing => some (upsertMerge existing (mkAreaOption label r)))
          (some e)
        = some (rs.foldl (fun ex r => upsertMerge ex (mkAreaOption label r)) e) := by
  intro rs
  induction rs with
  | nil => intro e; rfl
  | cons r rest ih => intro e; exact ih (upsertMerge e (mkAreaOption label r))

theorem mergeCollidingRows_cons (label : String) (r : RawCoordRow)
    (rs : List RawCoordRow) :
    mergeCollidingRows label (r :: rs)
      = some (rs.foldl (fun ex r' => upsertMerge ex (mkAreaOption label r'))
          (mkAreaOption label r)) := by
  unfold mergeCollidingRows
  rw [List.foldl_cons]
  exact mergeCollidingRows_go label rs (mkAreaOption label r)

theorem upsertMerge_sample_count (e i : AdminAreaOption) :
    (upsertMerge e i).sample_count = e.sample_count + 1 := rfl

theorem upsertMerge_label (e i : AdminAreaOption) :
    (upsertMerge e i).label = e.label := rfl

theorem foldMerge_sample_count (label : String) :
    ∀ (rs : List RawCoordRow) (e : AdminAreaOption),
      (rs.foldl (fun ex r => upsertMerge ex (mkAreaOption label r)) e).sample_count
        = e.sample_count + rs.length := by
  intro rs
  induction rs with
  | nil => intro e; simp
  | cons r rest ih =>
    intro e
    rw [List.foldl_cons, ih, upsertMerge_sample_count]
    simp
    omega

theorem mergeList_closed (label : String) :
    ∀ (rs : List RawCoordRow) (e : AdminAreaOption) (a b : ℚ),
      (∀ r ∈ rs, r.lat ≠ none ∧ r.lng ≠ none) →
      e.lat = some a → e.lng = some b → 0 < e.sample_count →
      rs.foldl (fun ex r => upsertMerge ex (mkAreaOption label r)) e
        = { label := e.label
            lat := some ((a * e.sample_count + latSum rs) / (e.sample_count + rs.length))
            lng := some ((b * e.sample_count + lngSum rs) / (e.sample_count + rs.length))
            sample_count := e.sample_count + rs.length } := by
  intro rs
  induction rs with
  | nil =>
    intro e a b _ hlat hlng hpos
    obtain ⟨lbl, lat, lng, n⟩ := e
    simp only at hlat hlng hpos
    subst hlat
    subst hlng
    have hn : ((n : ℚ)) ≠ 0 := Nat.cast_ne_zero.mpr (by omega)
    simp [latSum, lngSum, mul_div_assoc, mul_div_cancel_right₀ _ hn]
  | cons r rest ih =>
    intro e a b hall hlat hlng hpos
    obtain ⟨hrl, hrg⟩ := hall r (List.mem_cons_self r rest)
    obtain ⟨rl, hrl'⟩ := Option.ne_none_iff_exists'.mp hrl
    obtain ⟨rg, hrg'⟩ := Option.ne_none_iff_exists'.mp hrg
    rw [List.foldl_cons]
    have hmlat : (upsertMerge e (mkAreaOption label r)).lat
        = some ((a * e.sample_count + rl) / ((e.sample_count + 1 : Nat))) := by
      simp [upsertMerge, mkAreaOption, hlat, hrl']
    have hmlng : (upsertMerge e (mkAreaOption label r)).lng
        = some ((b * e.sample_count + rg) / ((e.sample_count + 1 : Nat))) := by
      simp [upsertMerge, mkAreaOption, hlng, hrg']
    rw [ih (upsertMerge e (mkAreaOption label r)) _ _
      (fun r' hr' => hall r' (List.mem_cons_of_mem _ hr')) hmlat hmlng
      (by rw [upsertMerge_sample_count]; omega)]
    have hcount : (upsertMerge e (mkAreaOption label r)).sample_count
        = e.sample_count + 1 := upsertMerge_sample_count e _
    have hne1 : ((e.sample_count : ℚ) + 1) ≠ 0 := by positivity
    rw [upsertMerge_label, hcount]
    congr 1
    · congr 1
      rw [show ((e.sample_count + 1 : Nat) : ℚ) = (e.sample_count : ℚ) + 1 by
        push_cast; ring]
      rw [div_mul_cancel₀ _ hne1]
      rw [show latSum (r :: rest) = rl + latSum rest from by
        simp [latSum, hrl']]
      rw [List.length_cons]
      push_cast
      ring_nf
    · congr 1
      rw [show ((e.sample_count + 1 : Nat) : ℚ) = (e.sample_count : ℚ) + 1 by
        push_cast; ring]
      rw [div_mul_cancel₀ _ hne1]
      rw [show lngSum (r :: rest) = rg + lngSum rest from by
        simp [lngSum, hrg']]
      rw [List.length_cons]
      push_cast
      ring_nf
    · rw [List.length_cons]
      omega

theorem mergeCollidingRows_closed (label : String) (l : List RawCoordRow)
    (h : ∀ r ∈ l, r.lat ≠ none ∧ r.lng ≠ none) (hne : l ≠ []) :
    mergeCollidingRows label l
      = some ⟨label, some (latSum l / l.length), some (lngSum l / l.length),
          l.length⟩ := by
  cases l with
  | nil => exact absurd rfl hne
  | cons r rs =>
    obtain ⟨hrl, hrg⟩ := h r (List.mem_cons_self r rs)
    obtain ⟨rl, hrl'⟩ := Option.ne_none_iff_exists'.mp hrl
    obtain ⟨rg, hrg'⟩ := Option.ne_none_iff_exists'.mp hrg
    rw [mergeCollidingRows_cons]
    rw [mergeList_closed label rs (mkAreaOption label r) rl rg
      (fun r' hr' => h r' (List.mem_cons_of_mem _ hr'))
      (by simp [mkAreaOption, hrl']) (by simp [mkAreaOption, hrg'])
      (by simp [mkAreaOption])]
    congr 1
    congr 1
    · congr 1
      rw [show latSum (r :: rs) = rl + latSum rs from by simp [latSum, hrl']]
      rw [show (mkAreaOption label r).sample_count = 1 from rfl, List.length_cons]
      push_cast
      ring_nf
    · congr 1
      rw [show lngSum (r :: rs) = rg + lngSum rs from by simp [lngSum, hrg']]
      rw [show (mkAreaOption label r).sample_count = 1 from rfl, List.length_cons]
      push_cast
      ring_nf
    · rw [show (mkAreaOption label r).sample_count = 1 from rfl, List.length_cons]
      omega

theorem mergeCollidingRows_count (label : String) (l : List RawCoordRow)
    (hne : l ≠ []) :
    (mergeCollidingRows label l).map (·.sample_count) = some l.length := by
  cases l with
  | nil => exact absurd rfl hne
  | cons r rs =>
    rw [mergeCollidingRows_cons]
    show some ((rs.foldl (fun ex r' => upsertMerge ex (mkAreaOption label r'))
        (mkAreaOption label r)).sample_count) = some (r :: rs).length
    rw [foldMerge_sample_count,
      show (mkAreaOption label r).sample_count = 1 from rfl,
      List.length_cons, Nat.add_comm]

/-- C3 counterexample: the same multiset of colliding rows — one row with
null coordinates and two with coordinates 0 and 2 — merged in two
different arrival orders yields latitude 2/3 (null first: the first
non-null value enters with the inflated running count) versus 1 (null
last), so the merge is not invariant under arrival order. -/
theorem centroid_merge_order_dependent :
    nullFirstRows.Perm nullLastRows ∧
      mergeCollidingRows "d" nullFirstRows ≠ mergeCollidingRows "d" nullLastRows := by
  constructor
  · decide
  · intro h
    norm_num [nullFirstRows, nullLastRows, mergeCollidingRows, upsertMerge,
      mkAreaOption] at h

/-- C3 (amended): the `sample_count` of the merged record is invariant
under permutation of the arrival order unconditionally; the `lat`/`lng`
averages are invariant under permutation whenever every colliding row
carries non-null coordinates (the merged record is then the componentwise
arithmetic mean), but when null-coordinate rows are present the result
can depend on the arrival order. -/
theorem centroid_merge_perm (label : String) (l₁ l₂ : List RawCoordRow)
    (hperm : l₁.Perm l₂) :
    (mergeCollidingRows label l₁).map (·.sample_count)
        = (mergeCollidingRows label l₂).map (·.sample_count) ∧
    ((∀ r ∈ l₁, r.lat ≠ none ∧ r.lng ≠ none) →
      mergeCollidingRows label l₁ = mergeCollidingRows label l₂) := by
  constructor
  · by_cases h1 : l₁ = []
    · subst h1
      rw [hperm.nil_eq]
    · have h2 : l₂ ≠ [] := by
        intro h0
        rw [h0] at hperm
        exact h1 hperm.eq_nil
      rw [mergeCollidingRows_count label l₁ h1,
        mergeCollidingRows_count label l₂ h2, hperm.length_eq]
  · intro hall
    by_cases h1 : l₁ = []
    · subst h1
      rw [hperm.nil_eq]
    · have h2 : l₂ ≠ [] := by
        intro h0
        rw [h0] at hperm
        exact h1 hperm.eq_nil
      have hall₂ : ∀ r ∈ l₂, r.lat ≠ none ∧ r.lng ≠ none :=
        fun r hr => hall r (hperm.mem_iff.mpr hr)
      rw [mergeCollidingRows_closed label l₁ hall h1,
        mergeCollidingRows_closed label l₂ hall₂ h2]
      have hlat : latSum l₁ = latSum l₂ := (hperm.map _).sum_eq
      have hlng : lngSum l₁ = lngSum l₂ := (hperm.map _).sum_eq
      rw [hlat, hlng, hperm.length_eq]

/-- Witness for the C3 theorem at a concrete input. -/
theorem centroid_merge_perm_witness :
    (nullLastRows.take 2).Perm [(⟨some 2, some 2⟩ : RawCoordRow), ⟨some 0, some 0⟩] ∧
    (∀ r ∈ nullLastRows.take 2, r.lat ≠ none ∧ r.lng ≠ none) ∧
    mergeCollidingRows "d" (nullLastRows.take 2)
      = mergeCollidingRows "d" [(⟨some 2, some 2⟩ : RawCoordRow), ⟨some 0, some 0⟩] :=
  ⟨by decide, by decide,
    (centroid_merge_perm "d" (nullLastRows.take 2)
      [⟨some 2, some 2⟩, ⟨some 0, some 0⟩] (by decide)).2 (by decide)⟩

end Housing

namespace Housing

/-! ### The typology inferrer's contract (claim C5) -/

/-- C5: the typology inferrer gives the title token priority over the
bedroom count — a title match yields `T<base>` / `T<base>+<extra>` for
every bedroom value — falls back to `T<round(bedrooms)>` for a
non-negative bedroom count when the title has no token, and yields
`"Unknown"` otherwise; including the spec's three concrete vectors. -/
theorem inferTypology_priority :
    (∀ b : Option Int, inferTypologyLabel b (some "T3+1 apartment in center") = "T3+1") ∧
    inferTypologyLabel (some 2) (some "Nice flat") = "T2" ∧
    inferTypologyLabel none (some "Nice flat") = "Unknown" ∧
    (∀ (b : Option Int) (t : Option String) (base : String),
      findTypologyToken (t.getD "") = some (base, none) →
      inferTypologyLabel b t = "T" ++ base) ∧
    (∀ (b : Option Int) (t : Option String) (base extra : String),
      findTypologyToken (t.getD "") = some (base, some extra) →
      inferTypologyLabel b t = "T" ++ base ++ "+" ++ extra) ∧
    (∀ (t : Option String) (n : Int),
      findTypologyToken (t.getD "") = none → 0 ≤ n →
      inferTypologyLabel (some n) t = "T" ++ natDecimal n.toNat) ∧
    (∀ t : Option String,
      findTypologyToken (t.getD "") = none → inferTypologyLabel none t = "Unknown") ∧
    (∀ (t : Option String) (n : Int),
      findTypologyToken (t.getD "") = none → n < 0 →
      inferTypologyLabel (some n) t = "Unknown") := by
  refine ⟨?_, by decide, by decide, ?_, ?_, ?_, ?_, ?_⟩
  · intro b
    rfl
  · intro b t base h
    simp [inferTypologyLabel, h]
  · intro b t base extra h
    simp [inferTypologyLabel, h]
  · intro t n h hn
    simp [inferTypologyLabel, h, hn]
  · intro t h
    simp [inferTypologyLabel, h]
  · intro t n h hn
    simp [inferTypologyLabel, h, show ¬((0 : Int) ≤ n) from by omega]

/-- Witness for the C5 theorem at a concrete input (the bedroom-fallback
branch, which carries the hypotheses). -/
theorem inferTypology_priority_witness :
    findTypologyToken ((some "Nice flat").getD "") = none ∧ (0 : Int) ≤ 2 ∧
      inferTypologyLabel (some 2) (some "Nice flat") = "T" ++ natDecimal (2 : Int).toNat :=
  ⟨by decide, by decide,
    inferTypology_priority.2.2.2.2.2.1 (some "Nice flat") 2 (by decide) (by decide)⟩

/-! ### Index-builder invariants -/

theorem trimmedLabel_ne {o : Option String} {t : String}
    (h : trimmedLabel o = some t) : t ≠ "" := by
  match o with
  | none => simp [trimmedLabel] at h
  | some s =>
    simp only [trimmedLabel] at h
    by_cases h0 : jsTrim s = ""
    · simp [h0] at h
    · simp [h0] at h
      rw [← h]
      exact h0

theorem foldl_preserve {α β : Type} (Q : String × β → Prop)
    (step : List (String × β) → α → List (String × β))
    (hstep : ∀ m x, (∀ e ∈ m, Q e) → ∀ e ∈ step m x, Q e) :
    ∀ (l : List α) (m : List (String × β)),
      (∀ e ∈ m, Q e) → ∀ e ∈ l.foldl step m, Q e := by
  intro l
  induction l with
  | nil => intro m hm; simpa using hm
  | cons x xs ih =>
    intro m hm
    rw [List.foldl_cons]
    exact ih _ (hstep m x hm)

theorem build_district_inv (ds : PortugalAdminDataset) :
    ∀ e ∈ (buildPortugalAdminIndex ds).districtByKey, e.2 ≠ "" := by
  refine foldl_preserve _ _ ?_ ds.districts [] (by simp)
  intro m d hm
  cases h : trimmedLabel d.label with
  | none => simpa [h] using hm
  | some label =>
    simp only [h]
    exact setA_forall _ m _ _ hm (trimmedLabel_ne h)

theorem build_muni_inv (ds : PortugalAdminDataset) :
    ∀ e ∈ (buildPortugalAdminIndex ds).municipalityByKey,
      e.2.municipality ≠ "" ∧ e.2.district ≠ "" := by
  refine foldl_preserve _ _ ?_ ds.municipalities [] (by simp)
  intro m mu hm
  cases hL : trimmedLabel mu.label with
  | none => simpa [hL] using hm
  | some municipalityName =>
    cases hD : trimmedLabel mu.district with
    | none => simpa [hL, hD] using hm
    | some districtName =>
      simp only [hL, hD]
      exact setA_forall _ m _ _ hm ⟨trimmedLabel_ne hL, trimmedLabel_ne hD⟩

theorem build_parish_inv (ds : PortugalAdminDataset) :
    ∀ e ∈ (buildPortugalAdminIndex ds).parishByKey,
      e.2.parish ≠ "" ∧ e.2.municipality ≠ "" ∧ e.2.district ≠ "" := by
  refine foldl_preserve _ _ ?_ ds.parishes [] (by simp)
  intro m p hm
  cases hL : trimmedLabel p.label with
  | none => simpa [hL] using hm
  | some parishName =>
    cases hM : trimmedLabel p.municipality with
    | none => simpa [hL, hM] using hm
    | some municipalityName =>
      cases hD : trimmedLabel p.district with
      | none => simpa [hL, hM, hD] using hm
      | some districtName =>
        simp only [hL, hM, hD]
        exact setA_forall _ m _ _ hm
          ⟨trimmedLabel_ne hL, trimmedLabel_ne hM, trimmedLabel_ne hD⟩

/-! ### Resolver evaluation lemmas -/

theorem firstHit_values {β : Type} {m : List (String × β)} {cs : List String}
    {v : β} (h : firstHit m cs = some v) : ∃ k, (k, v) ∈ m := by
  obtain ⟨c, _, hc⟩ := List.exists_of_findSome?_eq_some h
  exact ⟨normalizeLocationPart c, mem_of_getA hc⟩

theorem firstHit_none {β : Type} {m : List (String × β)} {cs : List String}
    (h : ∀ c ∈ cs, getA m (normalizeLocationPart c) = none) :
    firstHit m cs = none :=
  List.findSome?_eq_none_iff.mpr h

theorem resolve_of_parish_hit {text : Option String} {index : PortugalAdminIndex}
    {rec : ParishRec}
    (hp : firstHit index.parishByKey (extractLocationCandidates text) = some rec)
    (hmu : rec.municipality ≠ "") (hd : rec.district ≠ "") :
    resolveAdminHierarchy text index
      = ⟨some rec.district, some rec.municipality, some rec.parish⟩ := by
  simp [resolveAdminHierarchy, hp, falsyOpt, hmu, hd]

theorem resolve_of_muni_hit {text : Option String} {index : PortugalAdminIndex}
    {m : MuniRec}
    (hp : firstHit index.parishByKey (extractLocationCandidates text) = none)
    (hm : firstHit index.municipalityByKey (extractLocationCandidates text) = some m)
    (hd : m.district ≠ "") :
    resolveAdminHierarchy text index = ⟨some m.district, some m.municipality, none⟩ := by
  simp [resolveAdminHierarchy, hp, hm, falsyOpt, hd]

theorem resolve_of_district_hit {text : Option String} {index : PortugalAdminIndex}
    {d : String}
    (hp : firstHit index.parishByKey (extractLocationCandidates text) = none)
    (hm : firstHit index.municipalityByKey (extractLocationCandidates text) = none)
    (hd : firstHit index.districtByKey (extractLocationCandidates text) = some d) :
    resolveAdminHierarchy text index = ⟨some d, none, none⟩ := by
  simp [resolveAdminHierarchy, hp, hm, hd, falsyOpt]

theorem resolve_of_no_hit {text : Option String} {index : PortugalAdminIndex}
    (hp : firstHit index.parishByKey (extractLocationCandidates text) = none)
    (hm : firstHit index.municipalityByKey (extractLocationCandidates text) = none)
    (hd : firstHit index.districtByKey (extractLocationCandidates text) = none) :
    resolveAdminHierarchy text index = ⟨none, none, none⟩ := by
  simp [resolveAdminHierarchy, hp, hm, hd, falsyOpt]

end Housing

namespace Housing

/-- C10: against any index produced by the index builder, the resolved
hierarchy is internally consistent: a non-null parish forces non-null
municipality and district, a non-null municipality forces a non-null
district, and every non-null level is a non-empty string (the builder
drops records with blank labels or blank parent fields). -/
theorem resolver_hierarchy_consistent (ds : PortugalAdminDataset)
    (text : Option String) :
    ((resolveAdminHierarchy text (buildPortugalAdminIndex ds)).parish ≠ none →
      (resolveAdminHierarchy text (buildPortugalAdminIndex ds)).municipality ≠ none ∧
      (resolveAdminHierarchy text (buildPortugalAdminIndex ds)).district ≠ none) ∧
    ((resolveAdminHierarchy text (buildPortugalAdminIndex ds)).municipality ≠ none →
      (resolveAdminHierarchy text (buildPortugalAdminIndex ds)).district ≠ none) ∧
    (∀ s, (resolveAdminHierarchy text (buildPortugalAdminIndex ds)).district = some s →
      s ≠ "") ∧
    (∀ s, (resolveAdminHierarchy text (buildPortugalAdminIndex ds)).municipality = some s →
      s ≠ "") ∧
    (∀ s, (resolveAdminHierarchy text (buildPortugalAdminIndex ds)).parish = some s →
      s ≠ "") := by
  cases hp : firstHit (buildPortugalAdminIndex ds).parishByKey
      (extractLocationCandidates text) with
  | some rec =>
    obtain ⟨k, hkmem⟩ := firstHit_values hp
    obtain ⟨hpne, hmne, hdne⟩ := build_parish_inv ds (k, rec) hkmem
    rw [resolve_of_parish_hit hp hmne hdne]
    refine ⟨fun _ => ⟨by simp, by simp⟩, fun _ => by simp, ?_, ?_, ?_⟩
    · intro s hs
      simp at hs
      rw [← hs]
      exact hdne
    · intro s hs
      simp at hs
      rw [← hs]
      exact hmne
    · intro s hs
      simp at hs
      rw [← hs]
      exact hpne
  | none =>
    cases hm : firstHit (buildPortugalAdminIndex ds).municipalityByKey
        (extractLocationCandidates text) with
    | some m =>
      obtain ⟨k, hkmem⟩ := firstHit_values hm
      obtain ⟨hmne, hdne⟩ := build_muni_inv ds (k, m) hkmem
      rw [resolve_of_muni_hit hp hm hdne]
      refine ⟨fun hh => absurd rfl hh, fun _ => by simp, ?_, ?_, ?_⟩
      · intro s hs
        simp at hs
        rw [← hs]
        exact hdne
      · intro s hs
        simp at hs
        rw [← hs]
        exact hmne
      · intro s hs
        simp at hs
    | none =>
      cases hd : firstHit (buildPortugalAdminIndex ds).districtByKey
          (extractLocationCandidates text) with
      | some d =>
        obtain ⟨k, hkmem⟩ := firstHit_values hd
        have hdne := build_district_inv ds (k, d) hkmem
        rw [resolve_of_district_hit hp hm hd]
        refine ⟨fun hh => absurd rfl hh, fun hh => absurd rfl hh, ?_, ?_, ?_⟩
        · intro s hs
          simp at hs
          rw [← hs]
          exact hdne
        · intro s hs
          simp at hs
        · intro s hs
          simp at hs
      | none =>
        rw [resolve_of_no_hit hp hm hd]
        refine ⟨fun hh => absurd rfl hh, fun hh => absurd rfl hh, ?_, ?_, ?_⟩
        · intro s hs
          simp at hs
        · intro s hs
          simp at hs
        · intro s hs
          simp at hs

/-- Witness for the C10 theorem at a concrete input: a parish hit sets
all three levels. -/
theorem resolver_hierarchy_consistent_witness :
    (resolveAdminHierarchy (some "Alvalade")
        (buildPortugalAdminIndex ⟨[], [], [⟨some "Alvalade", some "Lisboa", some "Lisboa"⟩]⟩)).parish
      ≠ none ∧
    ((resolveAdminHierarchy (some "Alvalade")
        (buildPortugalAdminIndex ⟨[], [], [⟨some "Alvalade", some "Lisboa", some "Lisboa"⟩]⟩)).municipality
      ≠ none ∧
     (resolveAdminHierarchy (some "Alvalade")
        (buildPortugalAdminIndex ⟨[], [], [⟨some "Alvalade", some "Lisboa", some "Lisboa"⟩]⟩)).district
      ≠ none) :=
  ⟨by decide,
    (resolver_hierarchy_consistent
        ⟨[], [], [⟨some "Alvalade", some "Lisboa", some "Lisboa"⟩]⟩
        (some "Alvalade")).1 (by decide)⟩

/-- C7: resolving `"Matosinhos, Porto"` against the scenario index —
whose maps are exactly the claim's literal district and municipality maps
— yields `{district: "Porto", municipality: "Matosinhos", parish: null}`;
in general, over any built index, when no candidate matches a parish the
first municipality hit in candidate order sets both municipality and
district (and the parish stays null). -/
theorem resolver_municipality_pass :
    resolveAdminHierarchy (some "Matosinhos, Porto")
        (buildPortugalAdminIndex scenarioDataset)
      = ⟨some "Porto", some "Matosinhos", none⟩ ∧
    buildPortugalAdminIndex scenarioDataset
      = ⟨[("porto", "Porto")], [("matosinhos", ⟨"Matosinhos", "Porto"⟩)], []⟩ ∧
    (∀ (ds : PortugalAdminDataset) (text : Option String) (m : MuniRec),
      (∀ c ∈ extractLocationCandidates text,
        getA (buildPortugalAdminIndex ds).parishByKey (normalizeLocationPart c) = none) →
      firstHit (buildPortugalAdminIndex ds).municipalityByKey
          (extractLocationCandidates text) = some m →
      resolveAdminHierarchy text (buildPortugalAdminIndex ds)
        = ⟨some m.district, some m.municipality, none⟩) := by
  refine ⟨by decide, by decide, ?_⟩
  intro ds text m hp hm
  obtain ⟨k, hkmem⟩ := firstHit_values hm
  obtain ⟨_, hdne⟩ := build_muni_inv ds (k, m) hkmem
  exact resolve_of_muni_hit (firstHit_none hp) hm hdne

/-- Witness for the C7 theorem at the scenario input. -/
theorem resolver_municipality_pass_witness :
    (∀ c ∈ extractLocationCandidates (some "Matosinhos, Porto"),
      getA (buildPortugalAdminIndex scenarioDataset).parishByKey
        (normalizeLocationPart c) = none) ∧
    firstHit (buildPortugalAdminIndex scenarioDataset).municipalityByKey
        (extractLocationCandidates (some "Matosinhos, Porto"))
      = some ⟨"Matosinhos", "Porto"⟩ ∧
    resolveAdminHierarchy (some "Matosinhos, Porto")
        (buildPortugalAdminIndex scenarioDataset)
      = ⟨some "Porto", some "Matosinhos", none⟩ :=
  ⟨by decide, by decide,
    resolver_municipality_pass.2.2 scenarioDataset (some "Matosinhos, Porto")
      ⟨"Matosinhos", "Porto"⟩ (by decide) (by decide)⟩

/-- C6 counterexample: the claim quantifies over every admin index, but an
index built from a dataset containing a parish literally named
`"Rua das Flores 12"` resolves that text to the parish rather than to
all-null. -/
theorem resolver_rua_not_all_null :
    resolveAdminHierarchy (some "Rua das Flores 12") ruaIndex ≠ ⟨none, none, none⟩ := by
  decide

/-- C6 (amended): a level with no exact normalized-key match among the
candidate tokens stays null (parish; municipality when the parish pass
also missed; district when all three passes missed), an input with no
candidate tokens resolves to all-null, and `"Rua das Flores 12"` resolves
to all-null against every index whose maps have no entry at the
normalized key `"rua das flores 12"` — rather than against every index
whatsoever, since an index can contain that very key. -/
theorem resolver_no_match_null :
    (∀ (index : PortugalAdminIndex) (text : Option String),
      extractLocationCandidates text = [] →
      resolveAdminHierarchy text index = ⟨none, none, none⟩) ∧
    (∀ (index : PortugalAdminIndex) (text : Option String),
      (∀ c ∈ extractLocationCandidates text,
        getA index.parishByKey (normalizeLocationPart c) = none) →
      (resolveAdminHierarchy text index).parish = none) ∧
    (∀ (index : PortugalAdminIndex) (text : Option String),
      (∀ c ∈ extractLocationCandidates text,
        getA index.parishByKey (normalizeLocationPart c) = none) →
      (∀ c ∈ extractLocationCandidates text,
        getA index.municipalityByKey (normalizeLocationPart c) = none) →
      (resolveAdminHierarchy text index).municipality = none) ∧
    (∀ (index : PortugalAdminIndex) (text : Option String),
      (∀ c ∈ extractLocationCandidates text,
        getA index.parishByKey (normalizeLocationPart c) = none) →
      (∀ c ∈ extractLocationCandidates text,
        getA index.municipalityByKey (normalizeLocationPart c) = none) →
      (∀ c ∈ extractLocationCandidates text,
        getA index.districtByKey (normalizeLocationPart c) = none) →
      resolveAdminHierarchy text index = ⟨none, none, none⟩) ∧
    (∀ index : PortugalAdminIndex,
      getA index.parishByKey "rua das flores 12" = none →
      getA index.municipalityByKey "rua das flores 12" = none →
      getA index.districtByKey "rua das flores 12" = none →
      resolveAdminHierarchy (some "Rua das Flores 12") index = ⟨none, none, none⟩) := by
  have h2 : ∀ (index : PortugalAdminIndex) (text : Option String),
      (∀ c ∈ extractLocationCandidates text,
        getA index.parishByKey (normalizeLocationPart c) = none) →
      (resolveAdminHierarchy text index).parish = none := by
    intro index text hp
    have hp' := firstHit_none hp
    cases hm : firstHit index.municipalityByKey (extractLocationCandidates text) with
    | some m =>
      simp [resolveAdminHierarchy, hp', hm, falsyOpt]
      cases hd : firstHit index.districtByKey (extractLocationCandidates text) <;>
        by_cases hmd : m.district = "" <;> simp [hd, hmd]
    | none =>
      cases hd : firstHit index.districtByKey (extractLocationCandidates text) <;>
        simp [resolveAdminHierarchy, hp', hm, hd, falsyOpt]
  have h3 : ∀ (index : PortugalAdminIndex) (text : Option String),
      (∀ c ∈ extractLocationCandidates text,
        getA index.parishByKey (normalizeLocationPart c) = none) →
      (∀ c ∈ extractLocationCandidates text,
        getA index.municipalityByKey (normalizeLocationPart c) = none) →
      (resolveAdminHierarchy text index).municipality = none := by
    intro index text hp hm
    have hp' := firstHit_none hp
    have hm' := firstHit_none hm
    cases hd : firstHit index.districtByKey (extractLocationCandidates text) <;>
      simp [resolveAdminHierarchy, hp', hm', hd, falsyOpt]
  have h4 : ∀ (index : PortugalAdminIndex) (text : Option String),
      (∀ c ∈ extractLocationCandidates text,
        getA index.parishByKey (normalizeLocationPart c) = none) →
      (∀ c ∈ extractLocationCandidates text,
        getA index.municipalityByKey (normalizeLocationPart c) = none) →
      (∀ c ∈ extractLocationCandidates text,
        getA index.districtByKey (normalizeLocationPart c) = none) →
      resolveAdminHierarchy text index = ⟨none, none, none⟩ := by
    intro index text hp hm hd
    exact resolve_of_no_hit (firstHit_none hp) (firstHit_none hm) (firstHit_none hd)
  refine ⟨?_, h2, h3, h4, ?_⟩
  · intro index text h0
    refine h4 index text ?_ ?_ ?_ <;> (rw [h0]; intro c hc; simp at hc)
  · intro index hp hm hd
    refine h4 index (some "Rua das Flores 12") ?_ ?_ ?_ <;>
      (intro c hc
       rw [show extractLocationCandidates (some "Rua das Flores 12")
             = ["Rua das Flores 12"] from by decide] at hc
       simp at hc
       rw [hc,
         show normalizeLocationPart "Rua das Flores 12" = "rua das flores 12" from by decide])
    · exact hp
    · exact hm
    · exact hd

/-- Witness for the C6 theorem: against the empty index the text resolves
to all-null. -/
theorem resolver_no_match_null_witness :
    getA emptyIndex.parishByKey "rua das flores 12" = none ∧
    getA emptyIndex.municipalityByKey "rua das flores 12" = none ∧
    getA emptyIndex.districtByKey "rua das flores 12" = none ∧
    resolveAdminHierarchy (some "Rua das Flores 12") emptyIndex = ⟨none, none, none⟩ :=
  ⟨rfl, rfl, rfl, resolver_no_match_null.2.2.2.2 emptyIndex rfl rfl rfl⟩

end Housing

namespace Housing

/-! ### Upstream failure of the admin dataset route (claim C9) -/

/-- C9: if the cache is absent or stale and any of the three dataset
fetches fails (any page request returned a non-success status), the `GET`
handler responds with status 502 and leaves the cache exactly as it was —
no dataset is published from the partial results; and within one fetch,
an error response after any number of full pages fails the whole fetch
with that error, discarding the rows accumulated from the earlier pages. -/
theorem route_upstream_failure {T D : Type} (limit now : Nat)
    (st : RouteCache D) (build : List T → List T → List T → D)
    (dp mp pp : List (UpstreamPage T))
    (hstale : ∀ a data, st.cached = some (a, data) → ¬(now - a < cacheMs))
    (hfail : (∃ e, fetchAllPages limit dp 0 = Except.error e) ∨
             (∃ e, fetchAllPages limit mp 0 = Except.error e) ∨
             (∃ e, fetchAllPages limit pp 0 = Except.error e)) :
    routeGet limit now st build dp mp pp = (st, RouteResponse.errJson 502) ∧
    (∀ (pages rest : List (UpstreamPage T)) (s offset : Nat),
      (∀ pg ∈ pages, ∃ res, pg = UpstreamPage.ok res none ∧ res.length = limit) →
      fetchAllPages limit (pages ++ UpstreamPage.err s :: rest) offset
        = Except.error s) := by
  constructor
  · have hmain : routeGet.routeGetFetch limit now st build dp mp pp
        = (st, RouteResponse.errJson 502) := by
      unfold routeGet.routeGetFetch
      split
      · exfalso
        rcases hfail with ⟨e, heq⟩ | ⟨e, heq⟩ | ⟨e, heq⟩ <;> simp_all
      · rfl
      · rfl
      · rfl
    obtain ⟨co⟩ := st
    cases co with
    | none => exact hmain
    | some entry =>
      obtain ⟨a, data⟩ := entry
      show (if now - a < cacheMs then _ else _) = _
      rw [if_neg (hstale a data rfl)]
      exact hmain
  · intro pages
    induction pages with
    | nil =>
      intro rest s offset _
      rfl
    | cons pg pages' ih =>
      intro rest s offset hfull
      obtain ⟨res, rfl, hlen⟩ := hfull pg (List.mem_cons_self pg pages')
      rw [List.cons_append]
      show (if res.length < limit then Except.ok res
        else (fetchAllPages limit (pages' ++ UpstreamPage.err s :: rest)
          (offset + res.length)).map (res ++ ·)) = Except.error s
      rw [if_neg (by omega),
        ih rest s (offset + res.length)
          (fun pg' hpg' => hfull pg' (List.mem_cons_of_mem _ hpg'))]
      rfl

/-- Witness for the C9 theorem at a concrete input: an empty cache and a
first district page returning HTTP 500. -/
theorem route_upstream_failure_witness :
    (∃ e, fetchAllPages 100 ([UpstreamPage.err 500] : List (UpstreamPage Nat)) 0
        = Except.error e) ∧
    @routeGet Nat Nat 100 0 ⟨none⟩ (fun _ _ _ => 0)
        [UpstreamPage.err 500] [] []
      = (⟨none⟩, RouteResponse.errJson 502) :=
  ⟨⟨500, rfl⟩,
    (@route_upstream_failure Nat Nat 100 0 ⟨none⟩ (fun _ _ _ => 0)
      [UpstreamPage.err 500] [] []
      (fun a data h => Option.noConfusion h) (Or.inl ⟨500, rfl⟩)).1⟩

end Housing
